import Mathlib

set_option maxHeartbeats 1000000

/-!
Shallow embedding of the ALB ↔ http adapter core of this repository:
`core/request_adapter.go` (RequestAccessor.StripBasePath, EventToRequest,
ProxyResponseWriter with Write / WriteHeader / GetProxyResponse),
`core/types.go` (TimeoutResponse) and the echo adapter dispatch path
(ProxyWithContext / proxyInternal).

The parts of the Go standard library that this code calls are modelled from
their sources: `unicode/utf8.Valid`, `encoding/base64` StdEncoding,
`net/url.QueryEscape`, `net/textproto.CanonicalMIMEHeaderKey`,
`net/http.DetectContentType` and the validation that `http.NewRequest` /
`url.Parse` perform on the constructed URL string.

Conventions: Go bytes are `Nat` (every byte produced by the modelled code is
< 256); Go byte slices are `List Nat`; Go maps are association lists (a Go
map never repeats a key, and its unspecified iteration order is fixed here
as list order — no theorem below depends on that order except through the
deterministic functions defined here); `(value, error)` returns become
`Option` results or explicit pairs with an `Option String` error component.
-/

/-! ## Go strings and bytes: UTF-8 (`unicode/utf8`, string ↔ []byte) -/

/-- UTF-8 bytes of one character ([]byte conversion of a Go rune). -/
def utf8EncodeChar (c : Char) : List Nat :=
  let n := c.toNat
  if n < 128 then [n]
  else if n < 2048 then [192 + n / 64, 128 + n % 64]
  else if n < 65536 then [224 + n / 4096, 128 + n / 64 % 64, 128 + n % 64]
  else [240 + n / 262144, 128 + n / 4096 % 64, 128 + n / 64 % 64, 128 + n % 64]

def utf8EncodeList : List Char → List Nat
  | [] => []
  | c :: cs => utf8EncodeChar c ++ utf8EncodeList cs

/-- The bytes of a Go string, i.e. `[]byte(s)`. -/
def strBytes (s : String) : List Nat := utf8EncodeList s.data

/-- The first-continuation-byte range of a 3-byte sequence with lead byte
`b`: Go's `acceptRanges` rows for E0 (A0–BF), ED (80–9F, excluding
surrogates) and the default 80–BF. -/
def utf8ContThree (b b1 : Nat) : Prop :=
  if b = 224 then 160 ≤ b1 ∧ b1 ≤ 191
  else if b = 237 then 128 ≤ b1 ∧ b1 ≤ 159
  else 128 ≤ b1 ∧ b1 ≤ 191

/-- The first-continuation-byte range of a 4-byte sequence with lead byte
`b`: Go's `acceptRanges` rows for F0 (90–BF), F4 (80–8F, capping at
U+10FFFF) and the default 80–BF. -/
def utf8ContFour (b b1 : Nat) : Prop :=
  if b = 240 then 144 ≤ b1 ∧ b1 ≤ 191
  else if b = 244 then 128 ≤ b1 ∧ b1 ≤ 143
  else 128 ≤ b1 ∧ b1 ≤ 191

instance (b b1 : Nat) : Decidable (utf8ContThree b b1) := by
  unfold utf8ContThree; infer_instance

instance (b b1 : Nat) : Decidable (utf8ContFour b b1) := by
  unfold utf8ContFour; infer_instance

mutual

/-- Model of Go `utf8.Valid`: the byte list is a well-formed UTF-8 encoding
(lead-byte ranges C2–DF / E0–EF / F0–F4 with the continuation restrictions
that exclude overlong forms and surrogates, as in Go's `acceptRanges`
table). The two-, three- and four-byte sequences are handled by the helpers
below. -/
def utf8Valid : List Nat → Bool
  | [] => true
  | b :: rest =>
    if b < 128 then utf8Valid rest
    else if 194 ≤ b ∧ b ≤ 223 then utf8ValidTwo rest
    else if 224 ≤ b ∧ b ≤ 239 then utf8ValidThree b rest
    else if 240 ≤ b ∧ b ≤ 244 then utf8ValidFour b rest
    else false
termination_by l => (l.length, 1)

def utf8ValidTwo : List Nat → Bool
  | b1 :: rest1 => if 128 ≤ b1 ∧ b1 ≤ 191 then utf8Valid rest1 else false
  | [] => false
termination_by rest => (rest.length + 1, 0)

def utf8ValidThree : Nat → List Nat → Bool
  | b, b1 :: b2 :: rest2 =>
    if utf8ContThree b b1 ∧ 128 ≤ b2 ∧ b2 ≤ 191 then utf8Valid rest2 else false
  | _, _ => false
termination_by _ rest => (rest.length + 1, 0)

def utf8ValidFour : Nat → List Nat → Bool
  | b, b1 :: b2 :: b3 :: rest3 =>
    if utf8ContFour b b1 ∧ (128 ≤ b2 ∧ b2 ≤ 191) ∧ (128 ≤ b3 ∧ b3 ≤ 191) then
      utf8Valid rest3
    else false
  | _, _ => false
termination_by _ rest => (rest.length + 1, 0)

end

mutual

/-- Decoding of a well-formed UTF-8 byte list back into characters; the same
byte-range case analysis as `utf8Valid`, reconstructing each scalar value. -/
def utf8DecodeChars : List Nat → Option (List Char)
  | [] => some []
  | b :: rest =>
    if b < 128 then (utf8DecodeChars rest).map (fun cs => Char.ofNat b :: cs)
    else if 194 ≤ b ∧ b ≤ 223 then utf8DecodeTwo b rest
    else if 224 ≤ b ∧ b ≤ 239 then utf8DecodeThree b rest
    else if 240 ≤ b ∧ b ≤ 244 then utf8DecodeFour b rest
    else none
termination_by l => (l.length, 1)

def utf8DecodeTwo : Nat → List Nat → Option (List Char)
  | b, b1 :: rest1 =>
    if 128 ≤ b1 ∧ b1 ≤ 191 then
      (utf8DecodeChars rest1).map
        (fun cs => Char.ofNat ((b - 192) * 64 + (b1 - 128)) :: cs)
    else none
  | _, [] => none
termination_by _ rest => (rest.length + 1, 0)

def utf8DecodeThree : Nat → List Nat → Option (List Char)
  | b, b1 :: b2 :: rest2 =>
    if utf8ContThree b b1 ∧ 128 ≤ b2 ∧ b2 ≤ 191 then
      (utf8DecodeChars rest2).map
        (fun cs =>
          Char.ofNat ((b - 224) * 4096 + (b1 - 128) * 64 + (b2 - 128)) :: cs)
    else none
  | _, _ => none
termination_by _ rest => (rest.length + 1, 0)

def utf8DecodeFour : Nat → List Nat → Option (List Char)
  | b, b1 :: b2 :: b3 :: rest3 =>
    if utf8ContFour b b1 ∧ (128 ≤ b2 ∧ b2 ≤ 191) ∧ (128 ≤ b3 ∧ b3 ≤ 191) then
      (utf8DecodeChars rest3).map
        (fun cs =>
          Char.ofNat ((b - 240) * 262144 + (b1 - 128) * 4096
            + (b2 - 128) * 64 + (b3 - 128)) :: cs)
    else none
  | _, _ => none
termination_by _ rest => (rest.length + 1, 0)

end

/-- Go `string(bb)` as used in `GetProxyResponse`, which only converts byte
lists satisfying `utf8.Valid`; outside that guard the result is unspecified
here. -/
def stringFromBytes (bb : List Nat) : String :=
  match utf8DecodeChars bb with
  | some cs => String.mk cs
  | none => ""

/-! ## `encoding/base64` StdEncoding -/

def base64Alphabet : List Char :=
  "ABCDEFGHIJKLMNOPQRSTUVWXYZabcdefghijklmnopqrstuvwxyz0123456789+/".data

/-- Alphabet character of a 6-bit value (only applied to values < 64). -/
def b64Char (n : Nat) : Char := base64Alphabet.getD n '='

def b64IndexAux : List Char → Nat → Char → Option Nat
  | [], _, _ => none
  | a :: as, i, c => if a = c then some i else b64IndexAux as (i + 1) c

/-- Position of a character in the standard base64 alphabet. -/
def b64Index (c : Char) : Option Nat := b64IndexAux base64Alphabet 0 c

/-- Go `base64.StdEncoding.EncodeToString`, producing the character list:
3-byte groups become 4 alphabet characters, a 1- or 2-byte tail is padded
with `=`. -/
def base64EncodeBytes : List Nat → List Char
  | [] => []
  | [b0] => [b64Char (b0 / 4), b64Char (b0 % 4 * 16), '=', '=']
  | [b0, b1] =>
    [b64Char (b0 / 4), b64Char (b0 % 4 * 16 + b1 / 16), b64Char (b1 % 16 * 4), '=']
  | b0 :: b1 :: b2 :: rest =>
    b64Char (b0 / 4) :: b64Char (b0 % 4 * 16 + b1 / 16)
      :: b64Char (b1 % 16 * 4 + b2 / 64) :: b64Char (b2 % 64)
      :: base64EncodeBytes rest

def base64EncodeString (bb : List Nat) : String := String.mk (base64EncodeBytes bb)

/-- Decoding of a `\r`/`\n`-free character list in 4-character quanta, as Go's
`decodeQuantum` for StdEncoding: characters must be in the alphabet, `=`
padding may only close the final quantum (`xx==` or `xxx=`), and (default,
non-Strict encoding) trailing bits are ignored. -/
def base64DecodeQuanta : List Char → Option (List Nat)
  | [] => some []
  | c0 :: c1 :: c2 :: c3 :: rest =>
    match b64Index c0, b64Index c1 with
    | some v0, some v1 =>
      if c2 = '=' then
        if c3 = '=' ∧ rest = [] then some [v0 * 4 + v1 / 16] else none
      else
        match b64Index c2 with
        | some v2 =>
          if c3 = '=' then
            if rest = [] then some [v0 * 4 + v1 / 16, v1 % 16 * 16 + v2 / 4]
            else none
          else
            match b64Index c3 with
            | some v3 =>
              (base64DecodeQuanta rest).map
                (fun tl => (v0 * 4 + v1 / 16) :: (v1 % 16 * 16 + v2 / 4)
                  :: (v2 % 4 * 64 + v3) :: tl)
            | none => none
        | none => none
    | _, _ => none
  | _ => none

/-- Go `base64.StdEncoding.DecodeString`: newline characters are skipped
anywhere in the input, everything else is decoded in 4-character quanta. -/
def base64DecodeString (s : String) : Option (List Nat) :=
  base64DecodeQuanta (s.data.filter (fun c => ¬(c = '\r' ∨ c = '\n')))

/-! ## `net/url.QueryEscape` -/

def hexDigitUpper (n : Nat) : Char :=
  if n < 10 then Char.ofNat (48 + n) else Char.ofNat (55 + n)

/-- One byte of `url.QueryEscape` output: alphanumerics and `-._~` are kept,
a space becomes `+`, every other byte becomes `%XX` with uppercase hex. -/
def queryEscapeByte (b : Nat) : List Char :=
  if (48 ≤ b ∧ b ≤ 57) ∨ (65 ≤ b ∧ b ≤ 90) ∨ (97 ≤ b ∧ b ≤ 122)
      ∨ b = 45 ∨ b = 46 ∨ b = 95 ∨ b = 126 then
    [Char.ofNat b]
  else if b = 32 then [Char.ofNat 43]
  else [Char.ofNat 37, hexDigitUpper (b / 16), hexDigitUpper (b % 16)]

def queryEscapeBytes : List Nat → List Char
  | [] => []
  | b :: bs => queryEscapeByte b ++ queryEscapeBytes bs

/-- Go `url.QueryEscape` (byte-wise over the string's UTF-8 bytes). -/
def queryEscape (s : String) : String := String.mk (queryEscapeBytes (strBytes s))

/-! ## URL validation done by `http.NewRequest` / `url.Parse`

`http.NewRequest` rejects an invalid method and fails when `url.Parse` fails
on the URL string. For the URL strings this adapter constructs
(`serverAddress ++ path ++ optional "?query"`), `url.Parse` fails when the
string contains an ASCII control byte or when the part before the first `?`
(scheme, host and path, all of which Go checks for percent-escape validity)
contains a malformed `%`-escape; the query part is not escape-checked by
`url.Parse`. Only those checks are modelled here. -/

def isHexChar (c : Char) : Bool :=
  (48 ≤ c.toNat ∧ c.toNat ≤ 57) ∨ (65 ≤ c.toNat ∧ c.toNat ≤ 70)
    ∨ (97 ≤ c.toNat ∧ c.toNat ≤ 102)

def validPercentEscapes : List Char → Bool
  | [] => true
  | c :: cs =>
    if c = '%' then
      match cs with
      | a :: b :: rest => isHexChar a && isHexChar b && validPercentEscapes rest
      | _ => false
    else validPercentEscapes cs

def urlParseOk (s : String) : Bool :=
  ((strBytes s).all fun b => 32 ≤ b && b ≠ 127)
    && validPercentEscapes (s.data.takeWhile (· ≠ '?'))

/-- Token characters of RFC 7230 as in `httpguts.IsTokenRune`, used both for
method validation and for header-key canonicalization. -/
def isTokenChar (n : Nat) : Bool :=
  (48 ≤ n ∧ n ≤ 57) ∨ (65 ≤ n ∧ n ≤ 90) ∨ (97 ≤ n ∧ n ≤ 122)
    ∨ n = 33 ∨ n = 35 ∨ n = 36 ∨ n = 37 ∨ n = 38 ∨ n = 39 ∨ n = 42
    ∨ n = 43 ∨ n = 45 ∨ n = 46 ∨ n = 94 ∨ n = 95 ∨ n = 96 ∨ n = 124 ∨ n = 126

/-- Go `net/http.validMethod`: non-empty and all token characters. -/
def validMethod (m : String) : Bool :=
  m.length > 0 && m.data.all (fun c => isTokenChar c.toNat)

/-- `strings.ToUpper`, modelled on its ASCII action (the adapter's claims
never involve the few non-ASCII letters with ASCII uppercase forms). -/
def toUpperASCII (s : String) : String :=
  String.mk (s.data.map fun c =>
    if 97 ≤ c.toNat ∧ c.toNat ≤ 122 then Char.ofNat (c.toNat - 32) else c)

/-! ## `net/textproto` canonical header keys and `net/http.Header` -/

def validHeaderFieldByte (n : Nat) : Bool := n < 128 && isTokenChar n

def canonLoop : Bool → List Char → List Char
  | _, [] => []
  | upper, c :: cs =>
    let c' := if upper ∧ 97 ≤ c.toNat ∧ c.toNat ≤ 122 then Char.ofNat (c.toNat - 32)
      else if ¬upper ∧ 65 ≤ c.toNat ∧ c.toNat ≤ 90 then Char.ofNat (c.toNat + 32)
      else c
    c' :: canonLoop (c'.toNat = 45) cs

/-- Go `textproto.CanonicalMIMEHeaderKey`: a key with any invalid header
byte is returned unchanged, otherwise the first letter and each letter after
a `-` is uppercased and every other letter lowercased. -/
def canonicalMIMEHeaderKey (s : String) : String :=
  if s.data.all (fun c => validHeaderFieldByte c.toNat) then
    String.mk (canonLoop true s.data)
  else s

/-- `net/http.Header` as an association list from canonical key to the list
of values in insertion order. -/
abbrev HeadersMap := List (String × List String)

/-- `Header.Add`: canonicalize the key, append the value to the stored list
(in Go the headers are a map, so at most one entry can carry the canonical
key; on such well-formed maps this matches `append(h[key], value)`). -/
def headerAdd (h : HeadersMap) (k v : String) : HeadersMap :=
  if h.any (fun p => p.1 = canonicalMIMEHeaderKey k) then
    h.map (fun p =>
      if p.1 = canonicalMIMEHeaderKey k then (p.1, p.2 ++ [v]) else p)
  else h ++ [(canonicalMIMEHeaderKey k, [v])]

/-- The value list stored under a (canonical) key, `[]` when absent. -/
def headerValues (h : HeadersMap) (ck : String) : List String :=
  match h.find? (fun p => p.1 = ck) with
  | some p => p.2
  | none => []

/-- `Header.Get`: first stored value of the canonicalized key, `""` when the
key is absent or its value list is empty. -/
def headerGet (h : HeadersMap) (k : String) : String :=
  match headerValues h (canonicalMIMEHeaderKey k) with
  | [] => ""
  | v :: _ => v

def headerFirstValue (h : HeadersMap) (ck : String) : Option String :=
  match headerValues h ck with
  | [] => none
  | v :: _ => some v

def hasHeaderKey (h : HeadersMap) (ck : String) : Bool :=
  h.any (fun p => p.1 = ck)

/-! ## `net/http.DetectContentType`

Modelled from Go's `net/http/sniff.go`. The signature table keeps, in Go's
order, the HTML signatures, the `<?xml` masked signature, the PDF/PostScript
signatures, the UTF BOM signatures, the image signatures and the final plain
text heuristic; the audio/video/font/archive/mp4 signatures that sit between
the image block and the text heuristic are omitted (none of the inputs used
by any theorem below begins with those binary magic numbers). -/

inductive SniffSig where
  | html (pat : String)
  | masked (mask pat : List Nat) (skipWS : Bool) (ct : String)
  | exact (pat : List Nat) (ct : String)
  | text

/-- Go `htmlSig.match` on `data[firstNonWS:]`: case-insensitive match of the
pattern (uppercase pattern bytes fold the data byte with `& 0xDF`) followed
by a tag-terminating byte, space or `>`. -/
def htmlSigMatch : List Nat → List Nat → Bool
  | [], d :: _ => d = 32 ∨ d = 62
  | [], [] => false
  | p :: ps, d :: ds =>
    ((if 65 ≤ p ∧ p ≤ 90 then d &&& 0xDF else d) = p) && htmlSigMatch ps ds
  | _ :: _, [] => false

/-- Go `maskedSig.match`: each data byte masked then compared; fails when the
data is shorter than the pattern. -/
def maskedMatch : List Nat → List Nat → List Nat → Bool
  | [], [], _ => true
  | m :: ms, p :: ps, d :: ds => ((d &&& m) = p) && maskedMatch ms ps ds
  | _, _, _ => false

/-- Go `textSig.match`: no scanned byte in the binary-data ranges. -/
def textSigOk (bs : List Nat) : Bool :=
  bs.all fun b => ¬(b ≤ 8 ∨ b = 11 ∨ (14 ≤ b ∧ b ≤ 26) ∨ (28 ≤ b ∧ b ≤ 31))

def sigMatch (data trimmed : List Nat) : SniffSig → String
  | .html pat =>
    if htmlSigMatch (pat.data.map Char.toNat) trimmed then
      "text/html; charset=utf-8"
    else ""
  | .masked mask pat skipWS ct =>
    if maskedMatch mask pat (if skipWS then trimmed else data) then ct else ""
  | .exact pat ct => if pat.isPrefixOf data then ct else ""
  | .text => if textSigOk trimmed then "text/plain; charset=utf-8" else ""

def htmlSigList : List String :=
  ["<!DOCTYPE HTML", "<HTML", "<HEAD", "<SCRIPT", "<IFRAME", "<H1", "<DIV",
   "<FONT", "<TABLE", "<A", "<STYLE", "<TITLE", "<B", "<BODY", "<BR", "<P",
   "<!--"]

def sniffSignatures : List SniffSig :=
  htmlSigList.map SniffSig.html ++
  [.masked [255, 255, 255, 255, 255] [60, 63, 120, 109, 108] true
     "text/xml; charset=utf-8",
   .exact [37, 80, 68, 70, 45] "application/pdf",
   .exact [37, 33, 80, 83, 45, 65, 100, 111, 98, 101, 45] "application/postscript",
   .masked [255, 255, 0, 0] [254, 255, 0, 0] false "text/plain; charset=utf-16be",
   .masked [255, 255, 0, 0] [255, 254, 0, 0] false "text/plain; charset=utf-16le",
   .masked [255, 255, 255, 0] [239, 187, 191, 0] false "text/plain; charset=utf-8",
   .exact [0, 0, 1, 0] "image/x-icon",
   .exact [0, 0, 2, 0] "image/x-icon",
   .exact [66, 77] "image/bmp",
   .exact [71, 73, 70, 56, 55, 97] "image/gif",
   .exact [71, 73, 70, 56, 57, 97] "image/gif",
   .masked [255, 255, 255, 255, 0, 0, 0, 0, 255, 255, 255, 255, 255, 255]
     [82, 73, 70, 70, 0, 0, 0, 0, 87, 69, 66, 80, 86, 80] false "image/webp",
   .exact [137, 80, 78, 71, 13, 10, 26, 10] "image/png",
   .exact [255, 216, 255] "image/jpeg",
   .text]

def isSniffWS (b : Nat) : Bool := b = 9 ∨ b = 10 ∨ b = 12 ∨ b = 13 ∨ b = 32

def sniffLoop (data trimmed : List Nat) : List SniffSig → String
  | [] => "application/octet-stream"
  | sig :: sigs =>
    if sigMatch data trimmed sig ≠ "" then sigMatch data trimmed sig
    else sniffLoop data trimmed sigs

/-- Go `http.DetectContentType`: consider at most the first 512 bytes
(`sniffLen`), skip the leading sniffing whitespace for the signatures that
want it, try the signatures in order, fall back to
`application/octet-stream`. -/
def DetectContentType (body : List Nat) : String :=
  sniffLoop (body.take 512) ((body.take 512).dropWhile isSniffWS) sniffSignatures

/-! ## Data model (`aws-lambda-go/events` structs, as used by this code) -/

/-- `events.ALBTargetGroupRequest`. The request-context blob is carried
opaquely by the code (only stashed into the Go context, which is outside the
claims) and is omitted; `MultiValueHeaders` is never read by this code. -/
structure ALBTargetGroupRequest where
  HTTPMethod : String
  Path : String
  QueryStringParameters : List (String × String)
  MultiValueQueryStringParameters : List (String × List String)
  Headers : List (String × String)
  MultiValueHeaders : List (String × List String)
  IsBase64Encoded : Bool
  Body : String
deriving Repr, DecidableEq

/-- `events.ALBTargetGroupResponse`. This code only ever fills
`MultiValueHeaders`; the single-valued `Headers` field stays at its zero
value. -/
structure ALBTargetGroupResponse where
  StatusCode : Int
  StatusDescription : String
  Headers : List (String × String)
  MultiValueHeaders : HeadersMap
  Body : String
  IsBase64Encoded : Bool
deriving Repr, DecidableEq

/-- The zero value `events.ALBTargetGroupResponse{}`. -/
def emptyALBResponse : ALBTargetGroupResponse :=
  { StatusCode := 0, StatusDescription := "", Headers := [],
    MultiValueHeaders := [], Body := "", IsBase64Encoded := false }

/-- The fields of `http.Request` that `EventToRequest` populates; `URL` is
kept as the raw string handed to `http.NewRequest` (its parse-level query and
path are read off through `urlQuery` below). -/
structure HTTPRequest where
  Method : String
  URL : String
  BodyBytes : List Nat
  Header : HeadersMap
deriving Repr, DecidableEq

def dummyHTTPRequest : HTTPRequest :=
  { Method := "", URL := "", BodyBytes := [], Header := [] }

/-! ## `core/types.go` -/

/-- `TimeoutResponse`: a default Gateway Timeout (504) response. -/
def TimeoutResponse : ALBTargetGroupResponse :=
  { StatusCode := 504, StatusDescription := "504", Headers := [],
    MultiValueHeaders := [], Body := "", IsBase64Encoded := false }

/-! ## `core/request_adapter.go`: RequestAccessor and EventToRequest -/

def CustomHostVariable : String := "GO_API_HOST"

def DefaultServerAddress : String := "https://aws-serverless-go-api.com"

structure RequestAccessor where
  stripBasePath : String
deriving Repr, DecidableEq

/-- Go `strings.HasPrefix(s, pre)`, at the character level (UTF-8 is
self-synchronizing, so byte-prefix and character-prefix agree for whole
strings). -/
def hasPrefixStr (s pre : String) : Bool := pre.data.isPrefixOf s.data

/-- Go `strings.Trim(s, " ")`. -/
def trimSpaces (s : String) : String :=
  String.mk ((s.data.dropWhile (· = ' ')).reverse.dropWhile (· = ' ') |>.reverse)

/-- `RequestAccessor.StripBasePath`: empty/whitespace input clears the
setting; otherwise a leading slash is ensured and a trailing slash dropped.
Returns the updated accessor together with the Go return value. -/
def RequestAccessor.StripBasePath (r : RequestAccessor) (basePath : String) :
    RequestAccessor × String :=
  if trimSpaces basePath = "" then ({ r with stripBasePath := "" }, "")
  else
    let newBasePath := if hasPrefixStr basePath "/" then basePath else "/" ++ basePath
    let newBasePath :=
      if newBasePath.data.getLast? = some '/' then
        String.mk (newBasePath.data.take (newBasePath.data.length - 1))
      else newBasePath
    ({ r with stripBasePath := newBasePath }, newBasePath)

/-- The multi-value query-string loop of `EventToRequest`:
`&`-separated `escape(key)=escape(value)` pairs, flattening each key's value
list in order. -/
def multiValueQueryString (ps : List (String × List String)) : String :=
  ps.foldl
    (fun acc p =>
      p.2.foldl
        (fun acc v =>
          (if acc ≠ "" then acc ++ "&" else acc)
            ++ queryEscape p.1 ++ "=" ++ queryEscape v)
        acc)
    ""

/-- The single-value (backward compatibility) query-string loop. -/
def singleValueQueryString (ps : List (String × String)) : String :=
  ps.foldl
    (fun acc p =>
      (if acc ≠ "" then acc ++ "&" else acc)
        ++ queryEscape p.1 ++ "=" ++ queryEscape p.2)
    ""

/-- The `?query` suffix `EventToRequest` appends: the multi-value map when it
is non-empty, else the single-value map when that is non-empty, else
nothing. -/
def querySuffix (req : ALBTargetGroupRequest) : String :=
  if req.MultiValueQueryStringParameters.length > 0 then
    "?" ++ multiValueQueryString req.MultiValueQueryStringParameters
  else if req.QueryStringParameters.length > 0 then
    "?" ++ singleValueQueryString req.QueryStringParameters
  else ""

/-- The path normalization of `EventToRequest`: strip the configured base
path when it is configured (non-empty, length > 1) and is a prefix
(`strings.Replace(path, base, "", 1)` under the `HasPrefix` guard removes
exactly that prefix), then ensure a leading slash. -/
def normalizedPath (r : RequestAccessor) (path : String) : String :=
  let path :=
    if r.stripBasePath ≠ "" ∧ r.stripBasePath.length > 1 then
      if hasPrefixStr path r.stripBasePath then
        String.mk (path.data.drop r.stripBasePath.data.length)
      else path
    else path
  if hasPrefixStr path "/" then path else "/" ++ path

/-- The header-copy loop of `EventToRequest`: `Header.Add` for every entry of
the event's single-valued header map, starting from the empty header map of
a fresh `http.NewRequest`. -/
def buildRequestHeaders (hs : List (String × String)) : HeadersMap :=
  hs.foldl (fun h p => headerAdd h p.1 p.2) []

/-- The server address: the value of the `GO_API_HOST` environment variable
(`os.LookupEnv`, passed in as `env`) when set, `DefaultServerAddress`
otherwise. -/
def serverAddressOf (env : Option String) : String :=
  match env with
  | some customAddress => customAddress
  | none => DefaultServerAddress

/-- The URL string `EventToRequest` hands to `http.NewRequest`: server
address, then the normalized path, then the query suffix. -/
def urlOf (env : Option String) (r : RequestAccessor)
    (req : ALBTargetGroupRequest) : String :=
  serverAddressOf env ++ normalizedPath r req.Path ++ querySuffix req

/-- The method `http.NewRequest` sees: `strings.ToUpper` of the event
method, with `NewRequest` substituting `GET` for an empty method. -/
def methodOf (req : ALBTargetGroupRequest) : String :=
  if toUpperASCII req.HTTPMethod = "" then "GET" else toUpperASCII req.HTTPMethod

/-- `RequestAccessor.EventToRequest`. Returns `none` exactly where the Go
code returns a nil request and an error: base64 decoding failure, or
`http.NewRequest` rejecting the method / URL. -/
def EventToRequest (env : Option String) (r : RequestAccessor)
    (req : ALBTargetGroupRequest) : Option HTTPRequest :=
  match (if req.IsBase64Encoded then base64DecodeString req.Body
      else some (strBytes req.Body) : Option (List Nat)) with
  | none => none
  | some decodedBody =>
    if validMethod (methodOf req) ∧ urlParseOk (urlOf env r req) then
      some { Method := methodOf req, URL := urlOf env r req,
             BodyBytes := decodedBody,
             Header := buildRequestHeaders req.Headers }
    else none

/-- `EventToRequestWithContext` only adds the lambda/ALB context values to
the request's Go context (not modelled; no claim reads them) on top of
`EventToRequest`. -/
def EventToRequestWithContext (env : Option String) (r : RequestAccessor)
    (req : ALBTargetGroupRequest) : Option HTTPRequest :=
  EventToRequest env r req

/-! ## `core/request_adapter.go`: ProxyResponseWriter -/

def defaultStatusCode : Int := -1

def contentTypeHeaderKey : String := "Content-Type"

structure ProxyResponseWriter where
  headers : HeadersMap
  body : List Nat
  status : Int
deriving Repr, DecidableEq

/-- `NewProxyResponseWriter`: empty headers, empty buffer, status -1. -/
def NewProxyResponseWriter : ProxyResponseWriter :=
  { headers := [], body := [], status := defaultStatusCode }

/-- `ProxyResponseWriter.Write`: default the status to 200 on a first write,
sniff and add a Content-Type header if none is present, then append to the
body buffer. Returns the updated writer and the written count
(`bytes.Buffer.Write` never errors). -/
def ProxyResponseWriter.Write (r : ProxyResponseWriter) (body : List Nat) :
    ProxyResponseWriter × Nat :=
  let r := if r.status = -1 then { r with status := 200 } else r
  let r :=
    if headerGet r.headers contentTypeHeaderKey = "" then
      { r with
        headers := headerAdd r.headers contentTypeHeaderKey (DetectContentType body) }
    else r
  ({ r with body := r.body ++ body }, body.length)

/-- `ProxyResponseWriter.WriteHeader`. -/
def ProxyResponseWriter.WriteHeader (r : ProxyResponseWriter) (status : Int) :
    ProxyResponseWriter :=
  { r with status := status }

/-- `description`: `strconv.Itoa` of the status code. -/
def description (statusCode : Int) : String := toString statusCode

/-- `ProxyResponseWriter.GetProxyResponse`: error (with the zero-value
record) while the status is still the -1 sentinel; otherwise emit the buffer
as a plain string when it is valid UTF-8 and as base64 with the flag set
when it is not. -/
def ProxyResponseWriter.GetProxyResponse (r : ProxyResponseWriter) :
    ALBTargetGroupResponse × Option String :=
  if r.status = defaultStatusCode then
    (emptyALBResponse, some "Status code not set on response")
  else
    let bb := r.body
    let output := if utf8Valid bb then stringFromBytes bb else base64EncodeString bb
    let isBase64 := if utf8Valid bb then false else true
    ({ StatusCode := r.status, StatusDescription := description r.status,
       Headers := [], MultiValueHeaders := r.headers, Body := output,
       IsBase64Encoded := isBase64 }, none)

/-- `GetProxyResponse` with the receiver threaded explicitly: the method
body only reads `r.status`, `r.headers` and `(&r.body).Bytes()` (which does
not modify the buffer), so the state it returns is the receiver itself. -/
def ProxyResponseWriter.GetProxyResponseThreaded (r : ProxyResponseWriter) :
    ProxyResponseWriter × (ALBTargetGroupResponse × Option String) :=
  (r, r.GetProxyResponse)

/-! ## The echo adapter dispatch path (`EchoLambda`) -/

/-- `EchoLambda.proxyInternal`, with the framework's `ServeHTTP` abstracted
as a state function from (fresh response writer, request) to the writer after
the handler ran. Both error paths return `TimeoutResponse` plus the logged
error. -/
def proxyInternal (serve : ProxyResponseWriter → HTTPRequest → ProxyResponseWriter)
    (req? : Option HTTPRequest) : ALBTargetGroupResponse × Option String :=
  match req? with
  | none =>
    (TimeoutResponse, some "Could not convert proxy event to request")
  | some req =>
    match (serve NewProxyResponseWriter req).GetProxyResponse with
    | (_, some _) =>
      (TimeoutResponse, some "Error while generating proxy response")
    | (proxyResponse, none) => (proxyResponse, none)

/-- `EchoLambda.ProxyWithContext`: translate, then dispatch. -/
def ProxyWithContext (env : Option String) (acc : RequestAccessor)
    (serve : ProxyResponseWriter → HTTPRequest → ProxyResponseWriter)
    (req : ALBTargetGroupRequest) : ALBTargetGroupResponse × Option String :=
  proxyInternal serve (EventToRequestWithContext env acc req)

/-! ## Derived notions used to state the claims -/

/-- The trivial echo handler of claim C1: copy the request's headers and
body into the response writer. -/
def echoHandler (w : ProxyResponseWriter) (req : HTTPRequest) :
    ProxyResponseWriter :=
  (ProxyResponseWriter.Write { w with headers := req.Header } req.BodyBytes).1

/-- The query string `url.Parse` reads off a URL string: the part after the
first `?` of the part before the first `#`. -/
def queryPartChars : List Char → List Char
  | [] => []
  | c :: cs => if c = '?' then cs else queryPartChars cs

def urlQuery (s : String) : String :=
  String.mk (queryPartChars (s.data.takeWhile (· ≠ '#')))

/-- The byte sequence an ALB record body stands for: the body decoded
according to the record's own base64 flag (`none` when the flag is set but
the body is not valid base64). -/
def bodyBytesOf (body : String) (isBase64 : Bool) : Option (List Nat) :=
  if isBase64 then base64DecodeString body else some (strBytes body)

/-- All the writes of a handler run, folded over `Write`. -/
def writeAll (w : ProxyResponseWriter) (bss : List (List Nat)) :
    ProxyResponseWriter :=
  bss.foldl (fun w bs => (w.Write bs).1) w

/-- Some HTML signature of the sniffing table matches the (truncated,
whitespace-trimmed) body. -/
def htmlSigHit (body : List Nat) : Bool :=
  htmlSigList.any fun pat =>
    htmlSigMatch (pat.data.map Char.toNat) ((body.take 512).dropWhile isSniffWS)

/-! ## Lemmas: UTF-8 encoding and decoding -/

theorem charToNat_valid (c : Char) :
    c.toNat < 55296 ∨ (57344 ≤ c.toNat ∧ c.toNat < 1114112) := by
  have h := c.valid
  show c.val.toNat < 55296 ∨ (57344 ≤ c.val.toNat ∧ c.val.toNat < 1114112)
  rcases h with h | h
  · exact Or.inl h
  · exact Or.inr (by omega)

theorem toNat_charOfNat (n : Nat) (h : n.isValidChar) :
    (Char.ofNat n).toNat = n := by
  simp [Char.ofNat, h, Char.ofNatAux, Char.toNat, UInt32.toNat]

theorem utf8Valid_cons1 (b : Nat) (bs : List Nat) (h : b < 128) :
    utf8Valid (b :: bs) = utf8Valid bs := by
  simp [utf8Valid, h]

theorem utf8Valid_cons2 (b b1 : Nat) (bs : List Nat)
    (hb : 194 ≤ b ∧ b ≤ 223) (h1 : 128 ≤ b1 ∧ b1 ≤ 191) :
    utf8Valid (b :: b1 :: bs) = utf8Valid bs := by
  have hnb : ¬ b < 128 := by omega
  simp [utf8Valid, hnb, hb, utf8ValidTwo, h1]

theorem utf8Valid_cons3 (b b1 b2 : Nat) (bs : List Nat)
    (hb : 224 ≤ b ∧ b ≤ 239) (h1 : utf8ContThree b b1)
    (h2 : 128 ≤ b2 ∧ b2 ≤ 191) :
    utf8Valid (b :: b1 :: b2 :: bs) = utf8Valid bs := by
  have hnb : ¬ b < 128 := by omega
  have hnb2 : ¬ (194 ≤ b ∧ b ≤ 223) := by omega
  simp [utf8Valid, hnb, hnb2, hb, utf8ValidThree, h1, h2]

theorem utf8Valid_cons4 (b b1 b2 b3 : Nat) (bs : List Nat)
    (hb : 240 ≤ b ∧ b ≤ 244) (h1 : utf8ContFour b b1)
    (h2 : 128 ≤ b2 ∧ b2 ≤ 191) (h3 : 128 ≤ b3 ∧ b3 ≤ 191) :
    utf8Valid (b :: b1 :: b2 :: b3 :: bs) = utf8Valid bs := by
  have hnb : ¬ b < 128 := by omega
  have hnb2 : ¬ (194 ≤ b ∧ b ≤ 223) := by omega
  have hnb3 : ¬ (224 ≤ b ∧ b ≤ 239) := by omega
  simp [utf8Valid, hnb, hnb2, hnb3, hb, utf8ValidFour, h1, h2, h3]

theorem utf8ContThree_of_bounds (b b1 : Nat)
    (h : (b = 224 ∧ 160 ≤ b1 ∧ b1 ≤ 191) ∨ (b = 237 ∧ 128 ≤ b1 ∧ b1 ≤ 159)
      ∨ (b ≠ 224 ∧ b ≠ 237 ∧ 128 ≤ b1 ∧ b1 ≤ 191)) : utf8ContThree b b1 := by
  unfold utf8ContThree
  rcases h with ⟨h0, h⟩ | ⟨h0, h⟩ | ⟨h0, h0', h⟩
  · subst h0; simpa using h
  · subst h0; simpa using h
  · rw [if_neg h0, if_neg h0']; exact h

theorem utf8ContFour_of_bounds (b b1 : Nat)
    (h : (b = 240 ∧ 144 ≤ b1 ∧ b1 ≤ 191) ∨ (b = 244 ∧ 128 ≤ b1 ∧ b1 ≤ 143)
      ∨ (b ≠ 240 ∧ b ≠ 244 ∧ 128 ≤ b1 ∧ b1 ≤ 191)) : utf8ContFour b b1 := by
  unfold utf8ContFour
  rcases h with ⟨h0, h⟩ | ⟨h0, h⟩ | ⟨h0, h0', h⟩
  · subst h0; simpa using h
  · subst h0; simpa using h
  · rw [if_neg h0, if_neg h0']; exact h

theorem utf8Valid_encodeChar (c : Char) (bs : List Nat) :
    utf8Valid (utf8EncodeChar c ++ bs) = utf8Valid bs := by
  have hv := charToNat_valid c
  simp only [utf8EncodeChar]
  by_cases h1 : c.toNat < 128
  · simpa [h1] using utf8Valid_cons1 c.toNat bs h1
  · by_cases h2 : c.toNat < 2048
    · simp only [h1, h2, if_neg, if_pos, if_false, if_true, List.cons_append,
        List.nil_append]
      exact utf8Valid_cons2 _ _ bs (by omega) (by omega)
    · by_cases h3 : c.toNat < 65536
      · simp only [h1, h2, h3, if_neg, if_pos, if_false, if_true,
          List.cons_append, List.nil_append]
        refine utf8Valid_cons3 _ _ _ bs (by omega) ?_ (by omega)
        exact utf8ContThree_of_bounds _ _ (by omega)
      · simp only [h1, h2, h3, if_neg, if_pos, if_false, if_true,
          List.cons_append, List.nil_append]
        refine utf8Valid_cons4 _ _ _ _ bs (by omega) ?_ (by omega) (by omega)
        exact utf8ContFour_of_bounds _ _ (by omega)

theorem utf8Valid_encodeList (cs : List Char) :
    utf8Valid (utf8EncodeList cs) = true := by
  induction cs with
  | nil => simp [utf8EncodeList, utf8Valid]
  | cons c cs ih => rw [utf8EncodeList, utf8Valid_encodeChar]; exact ih

/-- []byte(s) is always valid UTF-8 (Go strings built from character data). -/
theorem utf8Valid_strBytes (s : String) : utf8Valid (strBytes s) = true :=
  utf8Valid_encodeList s.data

theorem utf8ContThree_elim (b b1 : Nat) (h : utf8ContThree b b1) :
    (b = 224 ∧ 160 ≤ b1 ∧ b1 ≤ 191) ∨ (b = 237 ∧ 128 ≤ b1 ∧ b1 ≤ 159)
      ∨ (b ≠ 224 ∧ b ≠ 237 ∧ 128 ≤ b1 ∧ b1 ≤ 191) := by
  unfold utf8ContThree at h
  by_cases h0 : b = 224
  · rw [if_pos h0] at h; exact Or.inl ⟨h0, h⟩
  · by_cases h0' : b = 237
    · rw [if_neg h0, if_pos h0'] at h; exact Or.inr (Or.inl ⟨h0', h⟩)
    · rw [if_neg h0, if_neg h0'] at h; exact Or.inr (Or.inr ⟨h0, h0', h⟩)

theorem utf8ContFour_elim (b b1 : Nat) (h : utf8ContFour b b1) :
    (b = 240 ∧ 144 ≤ b1 ∧ b1 ≤ 191) ∨ (b = 244 ∧ 128 ≤ b1 ∧ b1 ≤ 143)
      ∨ (b ≠ 240 ∧ b ≠ 244 ∧ 128 ≤ b1 ∧ b1 ≤ 191) := by
  unfold utf8ContFour at h
  by_cases h0 : b = 240
  · rw [if_pos h0] at h; exact Or.inl ⟨h0, h⟩
  · by_cases h0' : b = 244
    · rw [if_neg h0, if_pos h0'] at h; exact Or.inr (Or.inl ⟨h0', h⟩)
    · rw [if_neg h0, if_neg h0'] at h; exact Or.inr (Or.inr ⟨h0, h0', h⟩)

theorem utf8DecodeChars_cons1 (b : Nat) (bs : List Nat) (h : b < 128) :
    utf8DecodeChars (b :: bs)
      = (utf8DecodeChars bs).map (fun cs => Char.ofNat b :: cs) := by
  simp [utf8DecodeChars, h]

theorem utf8DecodeChars_cons2 (b b1 : Nat) (bs : List Nat)
    (hb : 194 ≤ b ∧ b ≤ 223) (h1 : 128 ≤ b1 ∧ b1 ≤ 191) :
    utf8DecodeChars (b :: b1 :: bs)
      = (utf8DecodeChars bs).map
          (fun cs => Char.ofNat ((b - 192) * 64 + (b1 - 128)) :: cs) := by
  have hnb : ¬ b < 128 := by omega
  simp [utf8DecodeChars, hnb, hb, utf8DecodeTwo, h1]

theorem utf8DecodeChars_cons3 (b b1 b2 : Nat) (bs : List Nat)
    (hb : 224 ≤ b ∧ b ≤ 239) (h1 : utf8ContThree b b1)
    (h2 : 128 ≤ b2 ∧ b2 ≤ 191) :
    utf8DecodeChars (b :: b1 :: b2 :: bs)
      = (utf8DecodeChars bs).map
          (fun cs =>
            Char.ofNat ((b - 224) * 4096 + (b1 - 128) * 64 + (b2 - 128)) :: cs) := by
  have hnb : ¬ b < 128 := by omega
  have hnb2 : ¬ (194 ≤ b ∧ b ≤ 223) := by omega
  simp [utf8DecodeChars, hnb, hnb2, hb, utf8DecodeThree, h1, h2]

theorem utf8DecodeChars_cons4 (b b1 b2 b3 : Nat) (bs : List Nat)
    (hb : 240 ≤ b ∧ b ≤ 244) (h1 : utf8ContFour b b1)
    (h2 : 128 ≤ b2 ∧ b2 ≤ 191) (h3 : 128 ≤ b3 ∧ b3 ≤ 191) :
    utf8DecodeChars (b :: b1 :: b2 :: b3 :: bs)
      = (utf8DecodeChars bs).map
          (fun cs =>
            Char.ofNat ((b - 240) * 262144 + (b1 - 128) * 4096
              + (b2 - 128) * 64 + (b3 - 128)) :: cs) := by
  have hnb : ¬ b < 128 := by omega
  have hnb2 : ¬ (194 ≤ b ∧ b ≤ 223) := by omega
  have hnb3 : ¬ (224 ≤ b ∧ b ≤ 239) := by omega
  simp [utf8DecodeChars, hnb, hnb2, hnb3, hb, utf8DecodeFour, h1, h2, h3]

theorem utf8DecodeChars_encodeChar (c : Char) (bs : List Nat) :
    utf8DecodeChars (utf8EncodeChar c ++ bs)
      = (utf8DecodeChars bs).map (fun cs => c :: cs) := by
  have hv := charToNat_valid c
  simp only [utf8EncodeChar]
  by_cases h1 : c.toNat < 128
  · simp only [if_pos h1, List.cons_append, List.nil_append]
    rw [utf8DecodeChars_cons1 _ _ h1, Char.ofNat_toNat]
  · by_cases h2 : c.toNat < 2048
    · simp only [h1, h2, if_false, if_true, if_neg, if_pos, List.cons_append,
        List.nil_append]
      rw [utf8DecodeChars_cons2 _ _ _ (by omega) (by omega)]
      have harith : (192 + c.toNat / 64 - 192) * 64 + (128 + c.toNat % 64 - 128)
          = c.toNat := by omega
      rw [harith, Char.ofNat_toNat]
    · by_cases h3 : c.toNat < 65536
      · simp only [h1, h2, h3, if_false, if_true, if_neg, if_pos,
          List.cons_append, List.nil_append]
        rw [utf8DecodeChars_cons3 _ _ _ _ (by omega)
          (utf8ContThree_of_bounds _ _ (by omega)) (by omega)]
        have harith : (224 + c.toNat / 4096 - 224) * 4096
            + (128 + c.toNat / 64 % 64 - 128) * 64 + (128 + c.toNat % 64 - 128)
            = c.toNat := by omega
        rw [harith, Char.ofNat_toNat]
      · simp only [h1, h2, h3, if_false, if_true, if_neg, if_pos,
          List.cons_append, List.nil_append]
        rw [utf8DecodeChars_cons4 _ _ _ _ _ (by omega)
          (utf8ContFour_of_bounds _ _ (by omega)) (by omega) (by omega)]
        have harith : (240 + c.toNat / 262144 - 240) * 262144
            + (128 + c.toNat / 4096 % 64 - 128) * 4096
            + (128 + c.toNat / 64 % 64 - 128) * 64 + (128 + c.toNat % 64 - 128)
            = c.toNat := by omega
        rw [harith, Char.ofNat_toNat]

theorem utf8DecodeChars_encodeList (cs : List Char) :
    utf8DecodeChars (utf8EncodeList cs) = some cs := by
  induction cs with
  | nil => simp [utf8EncodeList, utf8DecodeChars]
  | cons c cs ih => rw [utf8EncodeList, utf8DecodeChars_encodeChar, ih]; rfl

/-- Decoding the bytes of a Go string gives the string back. -/
theorem stringFromBytes_strBytes (s : String) : stringFromBytes (strBytes s) = s := by
  rw [strBytes, stringFromBytes, utf8DecodeChars_encodeList]

theorem utf8_decode_reencode :
    ∀ (n : Nat) (bb : List Nat), bb.length ≤ n → utf8Valid bb = true →
      ∃ cs, utf8DecodeChars bb = some cs ∧ utf8EncodeList cs = bb := by
  intro n
  induction n with
  | zero =>
    intro bb hlen _
    have hbb : bb = [] := List.length_eq_zero.mp (Nat.le_zero.mp hlen)
    subst hbb
    exact ⟨[], by simp [utf8DecodeChars], rfl⟩
  | succ n ih =>
    intro bb hlen hv
    match bb with
    | [] => exact ⟨[], by simp [utf8DecodeChars], rfl⟩
    | b :: rest =>
      simp only [List.length_cons] at hlen
      by_cases h1 : b < 128
      · rw [utf8Valid_cons1 _ _ h1] at hv
        obtain ⟨cs, hdec, henc⟩ := ih rest (by omega) hv
        refine ⟨Char.ofNat b :: cs, ?_, ?_⟩
        · rw [utf8DecodeChars_cons1 _ _ h1, hdec]; rfl
        · have hb : (Char.ofNat b).toNat = b :=
            toNat_charOfNat b (Or.inl (by omega))
          rw [utf8EncodeList]
          simp only [utf8EncodeChar, hb, if_pos h1]
          rw [henc]; rfl
      · by_cases h2 : 194 ≤ b ∧ b ≤ 223
        · match rest with
          | [] => simp [utf8Valid, h1, h2, utf8ValidTwo] at hv
          | b1 :: rest1 =>
            by_cases hc : 128 ≤ b1 ∧ b1 ≤ 191
            · rw [utf8Valid_cons2 _ _ _ h2 hc] at hv
              obtain ⟨cs, hdec, henc⟩ := ih rest1 (by simp at hlen; omega) hv
              set m := (b - 192) * 64 + (b1 - 128) with hm
              have hmv : (Char.ofNat m).toNat = m :=
                toNat_charOfNat m (Or.inl (by omega))
              refine ⟨Char.ofNat m :: cs, ?_, ?_⟩
              · rw [utf8DecodeChars_cons2 _ _ _ h2 hc, hdec]; rfl
              · rw [utf8EncodeList]
                simp only [utf8EncodeChar, hmv]
                have hnm : ¬ m < 128 := by omega
                have hm2 : m < 2048 := by omega
                simp only [if_neg hnm, if_pos hm2]
                have e0 : 192 + m / 64 = b := by omega
                have e1 : 128 + m % 64 = b1 := by omega
                rw [e0, e1, henc]; rfl
            · simp [utf8Valid, h1, h2, utf8ValidTwo, hc] at hv
        · by_cases h3 : 224 ≤ b ∧ b ≤ 239
          · match rest with
            | [] => simp [utf8Valid, h1, h2, h3, utf8ValidThree] at hv
            | [b1] => simp [utf8Valid, h1, h2, h3, utf8ValidThree] at hv
            | b1 :: b2 :: rest2 =>
              by_cases hc : utf8ContThree b b1 ∧ 128 ≤ b2 ∧ b2 ≤ 191
              · rw [utf8Valid_cons3 _ _ _ _ h3 hc.1 hc.2] at hv
                obtain ⟨cs, hdec, henc⟩ := ih rest2 (by simp at hlen; omega) hv
                set m := (b - 224) * 4096 + (b1 - 128) * 64 + (b2 - 128) with hm
                have hrange := utf8ContThree_elim b b1 hc.1
                have hmv : (Char.ofNat m).toNat = m := by
                  refine toNat_charOfNat m ?_
                  unfold Nat.isValidChar
                  rcases hrange with ⟨e, hr⟩ | ⟨e, hr⟩ | ⟨e, e', hr⟩ <;> omega
                refine ⟨Char.ofNat m :: cs, ?_, ?_⟩
                · rw [utf8DecodeChars_cons3 _ _ _ _ h3 hc.1 hc.2, hdec]; rfl
                · rw [utf8EncodeList]
                  simp only [utf8EncodeChar, hmv]
                  have hnm : ¬ m < 128 := by
                    rcases hrange with ⟨e, hr⟩ | ⟨e, hr⟩ | ⟨e, e', hr⟩ <;> omega
                  have hnm2 : ¬ m < 2048 := by
                    rcases hrange with ⟨e, hr⟩ | ⟨e, hr⟩ | ⟨e, e', hr⟩ <;> omega
                  have hm3 : m < 65536 := by omega
                  simp only [if_neg hnm, if_neg hnm2, if_pos hm3]
                  have e0 : 224 + m / 4096 = b := by omega
                  have e1 : 128 + m / 64 % 64 = b1 := by omega
                  have e2 : 128 + m % 64 = b2 := by omega
                  rw [e0, e1, e2, henc]; rfl
              · simp [utf8Valid, h1, h2, h3, utf8ValidThree, hc] at hv
          · by_cases h4 : 240 ≤ b ∧ b ≤ 244
            · match rest with
              | [] => simp [utf8Valid, h1, h2, h3, h4, utf8ValidFour] at hv
              | [b1] => simp [utf8Valid, h1, h2, h3, h4, utf8ValidFour] at hv
              | [b1, b2] => simp [utf8Valid, h1, h2, h3, h4, utf8ValidFour] at hv
              | b1 :: b2 :: b3 :: rest3 =>
                by_cases hc : utf8ContFour b b1 ∧ (128 ≤ b2 ∧ b2 ≤ 191)
                    ∧ (128 ≤ b3 ∧ b3 ≤ 191)
                · rw [utf8Valid_cons4 _ _ _ _ _ h4 hc.1 hc.2.1 hc.2.2] at hv
                  obtain ⟨cs, hdec, henc⟩ := ih rest3 (by simp at hlen; omega) hv
                  set m := (b - 240) * 262144 + (b1 - 128) * 4096
                    + (b2 - 128) * 64 + (b3 - 128) with hm
                  have hrange := utf8ContFour_elim b b1 hc.1
                  have hmv : (Char.ofNat m).toNat = m := by
                    refine toNat_charOfNat m ?_
                    unfold Nat.isValidChar
                    rcases hrange with ⟨e, hr⟩ | ⟨e, hr⟩ | ⟨e, e', hr⟩ <;> omega
                  refine ⟨Char.ofNat m :: cs, ?_, ?_⟩
                  · rw [utf8DecodeChars_cons4 _ _ _ _ _ h4 hc.1 hc.2.1 hc.2.2,
                      hdec]; rfl
                  · rw [utf8EncodeList]
                    simp only [utf8EncodeChar, hmv]
                    have hnm : ¬ m < 128 := by
                      rcases hrange with ⟨e, hr⟩ | ⟨e, hr⟩ | ⟨e, e', hr⟩ <;> omega
                    have hnm2 : ¬ m < 2048 := by
                      rcases hrange with ⟨e, hr⟩ | ⟨e, hr⟩ | ⟨e, e', hr⟩ <;> omega
                    have hnm3 : ¬ m < 65536 := by
                      rcases hrange with ⟨e, hr⟩ | ⟨e, hr⟩ | ⟨e, e', hr⟩ <;> omega
                    simp only [if_neg hnm, if_neg hnm2, if_neg hnm3]
                    have e0 : 240 + m / 262144 = b := by omega
                    have e1 : 128 + m / 4096 % 64 = b1 := by omega
                    have e2 : 128 + m / 64 % 64 = b2 := by omega
                    have e3 : 128 + m % 64 = b3 := by omega
                    rw [e0, e1, e2, e3, henc]; rfl
                · simp [utf8Valid, h1, h2, h3, h4, utf8ValidFour, hc] at hv
            · simp [utf8Valid, h1, h2, h3, h4] at hv

/-- Re-encoding the Go string made from a valid byte buffer gives the buffer
back. -/
theorem strBytes_stringFromBytes (bb : List Nat) (h : utf8Valid bb = true) :
    strBytes (stringFromBytes bb) = bb := by
  obtain ⟨cs, hdec, henc⟩ := utf8_decode_reencode bb.length bb le_rfl h
  rw [stringFromBytes, hdec]
  exact henc

theorem utf8EncodeChar_lt (c : Char) : ∀ b ∈ utf8EncodeChar c, b < 256 := by
  have h4 : c.toNat < 1114112 := by
    rcases charToNat_valid c with h | h
    · omega
    · omega
  simp only [utf8EncodeChar]
  split_ifs with h1 h2 h3 <;> intro b hb <;> simp at hb <;> omega

/-- Every byte of a Go string is below 256. -/
theorem strBytes_lt (s : String) : ∀ b ∈ strBytes s, b < 256 := by
  rw [strBytes]
  induction s.data with
  | nil => intro b hb; simp [utf8EncodeList] at hb
  | cons c cs ih =>
    intro b hb
    rw [utf8EncodeList] at hb
    rcases List.mem_append.mp hb with h | h
    · exact utf8EncodeChar_lt c b h
    · exact ih b h


/-! ## Lemmas: base64 -/

theorem b64IndexAux_lt (l : List Char) (i : Nat) (c : Char) (v : Nat)
    (h : b64IndexAux l i c = some v) : v < i + l.length := by
  induction l generalizing i with
  | nil => simp [b64IndexAux] at h
  | cons a as ih =>
    rw [b64IndexAux] at h
    by_cases ha : a = c
    · rw [if_pos ha] at h
      simp only [Option.some.injEq] at h
      simp [← h]
    · rw [if_neg ha] at h
      have := ih (i + 1) h
      simp only [List.length_cons]
      omega

theorem b64Index_lt (c : Char) (v : Nat) (h : b64Index c = some v) : v < 64 := by
  have := b64IndexAux_lt base64Alphabet 0 c v h
  simpa [base64Alphabet] using this

theorem b64Index_b64Char : ∀ v < 64, b64Index (b64Char v) = some v := by decide

theorem b64Char_not_pad : ∀ v < 64, ¬ b64Char v = '=' := by decide

theorem base64Alphabet_length : base64Alphabet.length = 64 := by decide

theorem b64Char_not_cr (n : Nat) : ¬ b64Char n = '\r' := by
  by_cases h : n < 64
  · have h64 : ∀ v < 64, ¬ b64Char v = '\r' := by decide
    exact h64 n h
  · have he : b64Char n = '=' := by
      rw [b64Char]
      apply List.getD_eq_default
      rw [base64Alphabet_length]
      omega
    rw [he]; decide

theorem b64Char_not_lf (n : Nat) : ¬ b64Char n = '\n' := by
  by_cases h : n < 64
  · have h64 : ∀ v < 64, ¬ b64Char v = '\n' := by decide
    exact h64 n h
  · have he : b64Char n = '=' := by
      rw [b64Char]
      apply List.getD_eq_default
      rw [base64Alphabet_length]
      omega
    rw [he]; decide

theorem base64EncodeBytes_no_newline (bb : List Nat) :
    ∀ c ∈ base64EncodeBytes bb, ¬(c = '\r' ∨ c = '\n') := by
  induction bb using base64EncodeBytes.induct with
  | case1 => intro c hc; simp [base64EncodeBytes] at hc
  | case2 b0 =>
    intro c hc
    simp only [base64EncodeBytes, List.mem_cons, List.not_mem_nil, or_false] at hc
    rcases hc with rfl | rfl | rfl | rfl
    · exact fun h => h.elim (b64Char_not_cr _) (b64Char_not_lf _)
    · exact fun h => h.elim (b64Char_not_cr _) (b64Char_not_lf _)
    · decide
    · decide
  | case3 b0 b1 =>
    intro c hc
    simp only [base64EncodeBytes, List.mem_cons, List.not_mem_nil, or_false] at hc
    rcases hc with rfl | rfl | rfl | rfl
    · exact fun h => h.elim (b64Char_not_cr _) (b64Char_not_lf _)
    · exact fun h => h.elim (b64Char_not_cr _) (b64Char_not_lf _)
    · exact fun h => h.elim (b64Char_not_cr _) (b64Char_not_lf _)
    · decide
  | case4 b0 b1 b2 rest ih =>
    intro c hc
    rw [base64EncodeBytes] at hc
    simp only [List.mem_cons] at hc
    rcases hc with rfl | rfl | rfl | rfl | hmem
    · exact fun h => h.elim (b64Char_not_cr _) (b64Char_not_lf _)
    · exact fun h => h.elim (b64Char_not_cr _) (b64Char_not_lf _)
    · exact fun h => h.elim (b64Char_not_cr _) (b64Char_not_lf _)
    · exact fun h => h.elim (b64Char_not_cr _) (b64Char_not_lf _)
    · exact ih c hmem

theorem base64DecodeQuanta_encode (bb : List Nat) (hlt : ∀ b ∈ bb, b < 256) :
    base64DecodeQuanta (base64EncodeBytes bb) = some bb := by
  induction bb using base64EncodeBytes.induct with
  | case1 => simp [base64EncodeBytes, base64DecodeQuanta]
  | case2 b0 =>
    have h0 : b0 < 256 := hlt b0 (by simp)
    have e0 : b64Index (b64Char (b0 / 4)) = some (b0 / 4) :=
      b64Index_b64Char _ (by omega)
    have e1 : b64Index (b64Char (b0 % 4 * 16)) = some (b0 % 4 * 16) :=
      b64Index_b64Char _ (by omega)
    rw [base64EncodeBytes, base64DecodeQuanta, e0, e1]
    simp only [if_pos rfl]
    simp only [and_self, if_pos]
    congr 1
    have : b0 % 4 * 16 / 16 = b0 % 4 := by omega
    rw [this]
    congr 1
    omega
  | case3 b0 b1 =>
    have h0 : b0 < 256 := hlt b0 (by simp)
    have h1 : b1 < 256 := hlt b1 (by simp)
    have e0 : b64Index (b64Char (b0 / 4)) = some (b0 / 4) :=
      b64Index_b64Char _ (by omega)
    have e1 : b64Index (b64Char (b0 % 4 * 16 + b1 / 16))
        = some (b0 % 4 * 16 + b1 / 16) := b64Index_b64Char _ (by omega)
    have e2 : b64Index (b64Char (b1 % 16 * 4)) = some (b1 % 16 * 4) :=
      b64Index_b64Char _ (by omega)
    have hp2 : ¬ b64Char (b1 % 16 * 4) = '=' := b64Char_not_pad _ (by omega)
    rw [base64EncodeBytes, base64DecodeQuanta]
    simp only [e0, e1, e2, if_neg hp2, if_pos rfl]
    have k0 : b0 / 4 * 4 + (b0 % 4 * 16 + b1 / 16) / 16 = b0 := by omega
    have k1 : (b0 % 4 * 16 + b1 / 16) % 16 * 16 + b1 % 16 * 4 / 4 = b1 := by
      omega
    rw [k0, k1]
    simp
  | case4 b0 b1 b2 rest ih =>
    have h0 : b0 < 256 := hlt b0 (by simp)
    have h1 : b1 < 256 := hlt b1 (by simp)
    have h2 : b2 < 256 := hlt b2 (by simp)
    have hrest : ∀ b ∈ rest, b < 256 := fun b hb => hlt b (by simp [hb])
    have e0 : b64Index (b64Char (b0 / 4)) = some (b0 / 4) :=
      b64Index_b64Char _ (by omega)
    have e1 : b64Index (b64Char (b0 % 4 * 16 + b1 / 16))
        = some (b0 % 4 * 16 + b1 / 16) := b64Index_b64Char _ (by omega)
    have e2 : b64Index (b64Char (b1 % 16 * 4 + b2 / 64))
        = some (b1 % 16 * 4 + b2 / 64) := b64Index_b64Char _ (by omega)
    have e3 : b64Index (b64Char (b2 % 64)) = some (b2 % 64) :=
      b64Index_b64Char _ (by omega)
    have hp2 : ¬ b64Char (b1 % 16 * 4 + b2 / 64) = '=' :=
      b64Char_not_pad _ (by omega)
    have hp3 : ¬ b64Char (b2 % 64) = '=' := b64Char_not_pad _ (by omega)
    rw [base64EncodeBytes, base64DecodeQuanta]
    simp only [e0, e1, e2, e3, if_neg hp2, if_neg hp3]
    rw [ih hrest]
    have k0 : b0 / 4 * 4 + (b0 % 4 * 16 + b1 / 16) / 16 = b0 := by omega
    have k1 : (b0 % 4 * 16 + b1 / 16) % 16 * 16
        + (b1 % 16 * 4 + b2 / 64) / 4 = b1 := by omega
    have k2 : (b1 % 16 * 4 + b2 / 64) % 4 * 64 + b2 % 64 = b2 := by omega
    rw [k0, k1, k2]
    simp

/-- Round trip: decoding a standard base64 encoding of a byte buffer gives
the buffer back. -/
theorem base64DecodeString_encode (bb : List Nat) (hlt : ∀ b ∈ bb, b < 256) :
    base64DecodeString (base64EncodeString bb) = some bb := by
  rw [base64DecodeString, base64EncodeString]
  have hfilter : (String.mk (base64EncodeBytes bb)).data.filter
      (fun c => ¬(c = '\r' ∨ c = '\n')) = base64EncodeBytes bb := by
    apply List.filter_eq_self.mpr
    intro c hc
    simpa using base64EncodeBytes_no_newline bb c hc
  rw [hfilter, base64DecodeQuanta_encode bb hlt]


theorem base64DecodeQuanta_lt :
    ∀ (n : Nat) (cs : List Char) (bb : List Nat), cs.length ≤ n →
      base64DecodeQuanta cs = some bb → ∀ b ∈ bb, b < 256 := by
  intro n
  induction n with
  | zero =>
    intro cs bb hlen h b hb
    have hcs : cs = [] := List.length_eq_zero.mp (Nat.le_zero.mp hlen)
    subst hcs
    rw [base64DecodeQuanta] at h
    simp only [Option.some.injEq] at h
    subst h
    simp at hb
  | succ n ih =>
    intro cs bb hlen h b hb
    match cs with
    | [] =>
      rw [base64DecodeQuanta] at h
      simp only [Option.some.injEq] at h
      subst h
      simp at hb
    | [c0] =>
      have he : base64DecodeQuanta [c0] = none := rfl
      rw [he] at h
      exact Option.noConfusion h
    | [c0, c1] =>
      have he : base64DecodeQuanta [c0, c1] = none := rfl
      rw [he] at h
      exact Option.noConfusion h
    | [c0, c1, c2] =>
      have he : base64DecodeQuanta [c0, c1, c2] = none := rfl
      rw [he] at h
      exact Option.noConfusion h
    | c0 :: c1 :: c2 :: c3 :: rest =>
      rw [base64DecodeQuanta] at h
      cases hv0 : b64Index c0 with
      | none => rw [hv0] at h; simp at h
      | some v0 =>
      cases hv1 : b64Index c1 with
      | none => rw [hv0, hv1] at h; simp at h
      | some v1 =>
      rw [hv0, hv1] at h
      simp only [] at h
      have hb0 := b64Index_lt _ _ hv0
      have hb1 := b64Index_lt _ _ hv1
      by_cases hc2 : c2 = '='
      · rw [if_pos hc2] at h
        split_ifs at h with hc3
        simp only [Option.some.injEq] at h
        subst h
        simp at hb
        omega
      · rw [if_neg hc2] at h
        cases hv2 : b64Index c2 with
        | none => rw [hv2] at h; simp at h
        | some v2 =>
        rw [hv2] at h
        simp only [] at h
        have hb2 := b64Index_lt _ _ hv2
        by_cases hc3 : c3 = '='
        · rw [if_pos hc3] at h
          split_ifs at h with hr
          simp only [Option.some.injEq] at h
          subst h
          simp at hb
          rcases hb with rfl | rfl <;> omega
        · rw [if_neg hc3] at h
          cases hv3 : b64Index c3 with
          | none => rw [hv3] at h; simp at h
          | some v3 =>
          rw [hv3] at h
          simp only [] at h
          have hb3 := b64Index_lt _ _ hv3
          cases hrest : base64DecodeQuanta rest with
          | none => rw [hrest] at h; simp at h
          | some tl =>
            rw [hrest] at h
            simp only [Option.map_some', Option.some.injEq] at h
            subst h
            simp only [List.mem_cons] at hb
            rcases hb with rfl | rfl | rfl | hmem
            · omega
            · omega
            · omega
            · exact ih rest tl (by simp at hlen; omega) hrest b hmem

/-- Every byte a successful base64 decode produces is below 256. -/
theorem base64DecodeString_lt (s : String) (bb : List Nat)
    (h : base64DecodeString s = some bb) : ∀ b ∈ bb, b < 256 := by
  rw [base64DecodeString] at h
  exact base64DecodeQuanta_lt _ _ bb le_rfl h

/-! ## Lemmas: header maps -/

theorem headerValues_cons_eq (p : String × List String) (t : HeadersMap)
    (ck : String) (hp : p.1 = ck) : headerValues (p :: t) ck = p.2 := by
  unfold headerValues
  rw [List.find?_cons_of_pos _ (by simp [hp])]

theorem headerValues_cons_ne (p : String × List String) (t : HeadersMap)
    (ck : String) (hp : ¬ p.1 = ck) :
    headerValues (p :: t) ck = headerValues t ck := by
  unfold headerValues
  rw [List.find?_cons_of_neg _ (by simp [hp])]

theorem headerAdd_cons_ne (p : String × List String) (t : HeadersMap)
    (k v : String) (hp : ¬ p.1 = canonicalMIMEHeaderKey k) :
    headerAdd (p :: t) k v = p :: headerAdd t k v := by
  unfold headerAdd
  have hc : (List.any (p :: t) fun q => decide (q.1 = canonicalMIMEHeaderKey k))
      = (List.any t fun q => decide (q.1 = canonicalMIMEHeaderKey k)) := by
    simp [hp]
  rw [hc]
  by_cases hany :
      (List.any t fun q => decide (q.1 = canonicalMIMEHeaderKey k)) = true
  · rw [if_pos hany, if_pos hany, List.map_cons, if_neg hp]
  · rw [if_neg hany, if_neg hany, List.cons_append]

theorem headerAdd_cons_eq (p : String × List String) (t : HeadersMap)
    (k v : String) (hp : p.1 = canonicalMIMEHeaderKey k) :
    headerAdd (p :: t) k v
      = (p.1, p.2 ++ [v])
        :: t.map (fun q =>
          if q.1 = canonicalMIMEHeaderKey k then (q.1, q.2 ++ [v]) else q) := by
  unfold headerAdd
  have hc : (List.any (p :: t) fun q => decide (q.1 = canonicalMIMEHeaderKey k))
      = true := by simp [hp]
  rw [if_pos hc, List.map_cons, if_pos hp]

theorem headerValues_map_ne (t : HeadersMap) (ck K v : String) (hK : ¬ K = ck) :
    headerValues
        (t.map (fun q => if q.1 = ck then (q.1, q.2 ++ [v]) else q)) K
      = headerValues t K := by
  induction t with
  | nil => rfl
  | cons q t ih =>
    rw [List.map_cons]
    by_cases hq : q.1 = ck
    · rw [if_pos hq]
      have h1 : ¬ (q.1, q.2 ++ [v]).1 = K := by
        show ¬ q.1 = K
        rw [hq]; exact fun h => hK h.symm
      have h2 : ¬ q.1 = K := by rw [hq]; exact fun h => hK h.symm
      rw [headerValues_cons_ne _ _ _ h1, headerValues_cons_ne _ _ _ h2, ih]
    · rw [if_neg hq]
      by_cases hqK : q.1 = K
      · rw [headerValues_cons_eq _ _ _ hqK, headerValues_cons_eq _ _ _ hqK]
      · rw [headerValues_cons_ne _ _ _ hqK, headerValues_cons_ne _ _ _ hqK, ih]

theorem headerValues_headerAdd_self (h : HeadersMap) (k v : String) :
    headerValues (headerAdd h k v) (canonicalMIMEHeaderKey k)
      = headerValues h (canonicalMIMEHeaderKey k) ++ [v] := by
  induction h with
  | nil =>
    unfold headerAdd
    simp only [List.any_nil, Bool.false_eq_true, if_false, List.nil_append]
    rw [headerValues_cons_eq (canonicalMIMEHeaderKey k, [v]) _ _ rfl]
    rfl
  | cons p t ih =>
    by_cases hp : p.1 = canonicalMIMEHeaderKey k
    · rw [headerAdd_cons_eq _ _ _ _ hp,
        headerValues_cons_eq (p.1, p.2 ++ [v]) _ _ hp,
        headerValues_cons_eq p _ _ hp]
    · rw [headerAdd_cons_ne _ _ _ _ hp, headerValues_cons_ne _ _ _ hp,
        headerValues_cons_ne p _ _ hp, ih]

theorem headerValues_headerAdd_ne (h : HeadersMap) (k v K : String)
    (hK : ¬ K = canonicalMIMEHeaderKey k) :
    headerValues (headerAdd h k v) K = headerValues h K := by
  induction h with
  | nil =>
    unfold headerAdd
    simp only [List.any_nil, Bool.false_eq_true, if_false, List.nil_append]
    rw [headerValues_cons_ne (canonicalMIMEHeaderKey k, [v]) _ _
      (fun he => hK he.symm)]
  | cons p t ih =>
    by_cases hp : p.1 = canonicalMIMEHeaderKey k
    · rw [headerAdd_cons_eq _ _ _ _ hp]
      have h1 : ¬ (p.1, p.2 ++ [v]).1 = K := by
        show ¬ p.1 = K
        rw [hp]; exact fun he => hK he.symm
      have h2 : ¬ p.1 = K := by rw [hp]; exact fun he => hK he.symm
      rw [headerValues_cons_ne _ _ _ h1, headerValues_cons_ne p _ _ h2,
        headerValues_map_ne _ _ _ _ hK]
    · rw [headerAdd_cons_ne _ _ _ _ hp]
      by_cases hpK : p.1 = K
      · rw [headerValues_cons_eq _ _ _ hpK, headerValues_cons_eq p _ _ hpK]
      · rw [headerValues_cons_ne _ _ _ hpK, headerValues_cons_ne p _ _ hpK, ih]

/-- Membership in the header map built by folding `Header.Add` over the
event's header entries: a value sits under canonical key `K` exactly when it
was already there or some source entry `(k, v)` with `canon k = K`
contributed it. -/
theorem headerValues_foldl_mem (hs : List (String × String)) (h0 : HeadersMap)
    (K v : String) :
    v ∈ headerValues (hs.foldl (fun h p => headerAdd h p.1 p.2) h0) K
      ↔ v ∈ headerValues h0 K
        ∨ ∃ k, canonicalMIMEHeaderKey k = K ∧ (k, v) ∈ hs := by
  induction hs generalizing h0 with
  | nil => simp
  | cons p t ih =>
    rw [List.foldl_cons, ih]
    by_cases hK : K = canonicalMIMEHeaderKey p.1
    · rw [hK, headerValues_headerAdd_self]
      constructor
      · intro hmem
        rcases hmem with hmem | hmem
        · rcases List.mem_append.mp hmem with hmem | hmem
          · exact Or.inl hmem
          · refine Or.inr ⟨p.1, rfl, ?_⟩
            simp at hmem
            subst hmem
            simp
        · rcases hmem with ⟨k, hk, hkmem⟩
          exact Or.inr ⟨k, hk, by simp [hkmem]⟩
      · intro hmem
        rcases hmem with hmem | ⟨k, hk, hkmem⟩
        · exact Or.inl (List.mem_append.mpr (Or.inl hmem))
        · rcases List.mem_cons.mp hkmem with he | hkmem
          · have : v = p.2 := congrArg Prod.snd he
            subst this
            exact Or.inl (List.mem_append.mpr (Or.inr (by simp)))
          · exact Or.inr ⟨k, hk, hkmem⟩
    · rw [headerValues_headerAdd_ne _ _ _ _ hK]
      constructor
      · intro hmem
        rcases hmem with hmem | ⟨k, hk, hkmem⟩
        · exact Or.inl hmem
        · exact Or.inr ⟨k, hk, by simp [hkmem]⟩
      · intro hmem
        rcases hmem with hmem | ⟨k, hk, hkmem⟩
        · exact Or.inl hmem
        · rcases List.mem_cons.mp hkmem with he | hkmem
          · exfalso
            apply hK
            rw [← hk]
            have : k = p.1 := congrArg Prod.fst he
            rw [this]
          · exact Or.inr ⟨k, hk, hkmem⟩

theorem buildRequestHeaders_mem (hs : List (String × String)) (K v : String) :
    v ∈ headerValues (buildRequestHeaders hs) K
      ↔ ∃ k, canonicalMIMEHeaderKey k = K ∧ (k, v) ∈ hs := by
  rw [buildRequestHeaders, headerValues_foldl_mem]
  constructor
  · intro h
    rcases h with h | h
    · simp [headerValues] at h
    · exact h
  · exact Or.inr

/-! ## Lemmas: headerGet and Content-Type handling in Write -/

theorem canonicalCT : canonicalMIMEHeaderKey "Content-Type" = "Content-Type" := by
  decide

theorem headerValues_of_no_key (h : HeadersMap) (ck : String)
    (hk : hasHeaderKey h ck = false) : headerValues h ck = [] := by
  unfold headerValues
  rw [List.find?_eq_none.mpr]
  intro p hp hdec
  rw [hasHeaderKey] at hk
  have hany : List.any h (fun p => decide (p.1 = ck)) = true :=
    List.any_eq_true.mpr ⟨p, hp, hdec⟩
  rw [hany] at hk
  exact Bool.true_eq_false.mp hk

theorem headerGet_of_no_key (h : HeadersMap)
    (hk : hasHeaderKey h contentTypeHeaderKey = false) :
    headerGet h contentTypeHeaderKey = "" := by
  rw [headerGet, contentTypeHeaderKey, canonicalCT]
  rw [headerValues_of_no_key h "Content-Type"
    (by rw [contentTypeHeaderKey] at hk; exact hk)]

theorem headerGet_headerAdd_CT (h : HeadersMap) (v : String)
    (hk : hasHeaderKey h contentTypeHeaderKey = false) :
    headerGet (headerAdd h contentTypeHeaderKey v) contentTypeHeaderKey = v := by
  rw [headerGet]
  have hself := headerValues_headerAdd_self h contentTypeHeaderKey v
  rw [contentTypeHeaderKey] at hself ⊢
  rw [canonicalCT] at hself ⊢
  rw [hself]
  have hempty : headerValues h "Content-Type" = [] :=
    headerValues_of_no_key h "Content-Type"
      (by rw [hasHeaderKey, contentTypeHeaderKey] at hk; exact hk)
  rw [hempty]
  rfl

theorem headerFirstValue_headerAdd (h : HeadersMap) (k v x : String)
    (hx : headerFirstValue h (canonicalMIMEHeaderKey k) = some x) :
    headerFirstValue (headerAdd h k v) (canonicalMIMEHeaderKey k) = some x := by
  rw [headerFirstValue] at hx ⊢
  rw [headerValues_headerAdd_self]
  revert hx
  cases headerValues h (canonicalMIMEHeaderKey k) with
  | nil => intro hx; exact Option.noConfusion hx
  | cons a t => intro hx; simpa using hx

/-! ## Lemmas: ProxyResponseWriter -/

theorem write_fields (w : ProxyResponseWriter) (bs : List Nat) :
    (w.Write bs).1.status = (if w.status = -1 then 200 else w.status)
      ∧ (w.Write bs).1.body = w.body ++ bs
      ∧ (w.Write bs).2 = bs.length
      ∧ (w.Write bs).1.headers
          = (if headerGet w.headers contentTypeHeaderKey = "" then
              headerAdd w.headers contentTypeHeaderKey (DetectContentType bs)
            else w.headers) := by
  rw [ProxyResponseWriter.Write]
  by_cases h1 : w.status = -1 <;> by_cases h2 :
      headerGet w.headers contentTypeHeaderKey = "" <;>
    simp [h1, h2]

theorem write_status_ne (w : ProxyResponseWriter) (bs : List Nat)
    (h : ¬ w.status = -1) : (w.Write bs).1.status = w.status := by
  rw [(write_fields w bs).1, if_neg h]

theorem writeAll_status (bss : List (List Nat)) (w : ProxyResponseWriter)
    (h : ¬ w.status = -1) :
    (writeAll w bss).status = w.status := by
  induction bss generalizing w with
  | nil => rfl
  | cons bs t ih =>
    rw [writeAll, List.foldl_cons]
    have hs := write_status_ne w bs h
    have := ih (w.Write bs).1 (by rw [hs]; exact h)
    rw [writeAll] at this
    rw [this, hs]

/-- `GetProxyResponse` once the status sentinel has been replaced. -/
theorem getProxyResponse_of_status_set (w : ProxyResponseWriter)
    (h : ¬ w.status = -1) :
    w.GetProxyResponse
      = ({ StatusCode := w.status, StatusDescription := description w.status,
           Headers := [], MultiValueHeaders := w.headers,
           Body := if utf8Valid w.body then stringFromBytes w.body
             else base64EncodeString w.body,
           IsBase64Encoded := if utf8Valid w.body then false else true },
         none) := by
  rw [ProxyResponseWriter.GetProxyResponse, defaultStatusCode, if_neg h]

/-! ## Lemmas: content sniffing -/

theorem sniffLoop_html (data trimmed : List Nat) (pats : List String)
    (rest : List SniffSig)
    (hhit : pats.any
      (fun pat => htmlSigMatch (pat.data.map Char.toNat) trimmed) = true) :
    sniffLoop data trimmed (pats.map SniffSig.html ++ rest)
      = "text/html; charset=utf-8" := by
  induction pats with
  | nil => simp at hhit
  | cons pat t ih =>
    rw [List.map_cons, List.cons_append, sniffLoop]
    by_cases hm : htmlSigMatch (pat.data.map Char.toNat) trimmed = true
    · have hs : sigMatch data trimmed (SniffSig.html pat)
          = "text/html; charset=utf-8" := by
        rw [sigMatch, if_pos hm]
      rw [hs, if_pos (by decide)]
    · have hs : sigMatch data trimmed (SniffSig.html pat) = "" := by
        rw [sigMatch, if_neg hm]
      rw [hs, if_neg (by simp)]
      exact ih (by simpa [hm] using hhit)

theorem DetectContentType_of_htmlSigHit (body : List Nat)
    (hhit : htmlSigHit body = true) :
    DetectContentType body = "text/html; charset=utf-8" := by
  rw [DetectContentType, sniffSignatures]
  exact sniffLoop_html _ _ _ _ (by rw [htmlSigHit] at hhit; exact hhit)

/-! ## Lemmas: EventToRequest -/

theorem EventToRequest_some (env : Option String) (acc : RequestAccessor)
    (req : ALBTargetGroupRequest) (r : HTTPRequest)
    (h : EventToRequest env acc req = some r) :
    bodyBytesOf req.Body req.IsBase64Encoded = some r.BodyBytes
      ∧ r.Method = methodOf req ∧ r.URL = urlOf env acc req
      ∧ r.Header = buildRequestHeaders req.Headers := by
  rw [EventToRequest] at h
  cases hd : (if req.IsBase64Encoded then base64DecodeString req.Body
      else some (strBytes req.Body) : Option (List Nat)) with
  | none => rw [hd] at h; exact Option.noConfusion h
  | some bb =>
    rw [hd] at h
    simp only [] at h
    split_ifs at h with hvm
    have hr := Option.some.inj h
    subst hr
    exact ⟨by rw [bodyBytesOf]; exact hd, rfl, rfl, rfl⟩

theorem EventToRequest_none_of_decode_fail (env : Option String)
    (acc : RequestAccessor) (req : ALBTargetGroupRequest)
    (hflag : req.IsBase64Encoded = true)
    (hfail : base64DecodeString req.Body = none) :
    EventToRequest env acc req = none := by
  rw [EventToRequest, hflag]
  simp only [if_true, hfail]

theorem EventToRequest_bodyBytes_lt (env : Option String)
    (acc : RequestAccessor) (req : ALBTargetGroupRequest) (r : HTTPRequest)
    (h : EventToRequest env acc req = some r) : ∀ b ∈ r.BodyBytes, b < 256 := by
  have hb := (EventToRequest_some env acc req r h).1
  rw [bodyBytesOf] at hb
  by_cases hflag : req.IsBase64Encoded = true
  · rw [if_pos hflag] at hb
    exact base64DecodeString_lt _ _ hb
  · rw [if_neg hflag] at hb
    have := Option.some.inj hb
    rw [← this]
    exact strBytes_lt req.Body

/-! ## Lemmas: query strings and the URL query component -/

set_option maxRecDepth 4000 in
theorem queryEscapeByte_chars : ∀ b < 256, ∀ c ∈ queryEscapeByte b,
    ¬(c = '?' ∨ c = '#') := by decide

theorem queryEscapeBytes_chars (bs : List Nat) (hlt : ∀ b ∈ bs, b < 256) :
    ∀ c ∈ queryEscapeBytes bs, ¬(c = '?' ∨ c = '#') := by
  induction bs with
  | nil => intro c hc; simp [queryEscapeBytes] at hc
  | cons b bs ih =>
    intro c hc
    rw [queryEscapeBytes] at hc
    rcases List.mem_append.mp hc with hc | hc
    · exact queryEscapeByte_chars b (hlt b (by simp)) c hc
    · exact ih (fun x hx => hlt x (by simp [hx])) c hc

theorem queryEscape_chars (s : String) :
    ∀ c ∈ (queryEscape s).data, ¬(c = '?' ∨ c = '#') := by
  rw [queryEscape]
  exact queryEscapeBytes_chars (strBytes s) (strBytes_lt s)

theorem append_chars (a b : String)
    (ha : ∀ c ∈ a.data, ¬(c = '?' ∨ c = '#'))
    (hb : ∀ c ∈ b.data, ¬(c = '?' ∨ c = '#')) :
    ∀ c ∈ (a ++ b).data, ¬(c = '?' ∨ c = '#') := by
  intro c hc
  rw [String.data_append] at hc
  rcases List.mem_append.mp hc with hc | hc
  · exact ha c hc
  · exact hb c hc

theorem singleQS_step_chars (acc : String) (p : String × String)
    (hacc : ∀ c ∈ acc.data, ¬(c = '?' ∨ c = '#')) :
    ∀ c ∈ ((if acc ≠ "" then acc ++ "&" else acc)
        ++ queryEscape p.1 ++ "=" ++ queryEscape p.2).data,
      ¬(c = '?' ∨ c = '#') := by
  apply append_chars
  apply append_chars
  apply append_chars
  · split_ifs with hne
    · exact append_chars _ _ hacc (by decide)
    · exact hacc
  · exact queryEscape_chars p.1
  · decide
  · exact queryEscape_chars p.2

theorem singleValueQueryString_chars (ps : List (String × String)) :
    ∀ c ∈ (singleValueQueryString ps).data, ¬(c = '?' ∨ c = '#') := by
  rw [singleValueQueryString]
  have hgen : ∀ (l : List (String × String)) (acc : String),
      (∀ c ∈ acc.data, ¬(c = '?' ∨ c = '#')) →
      ∀ c ∈ (l.foldl
          (fun acc p =>
            (if acc ≠ "" then acc ++ "&" else acc)
              ++ queryEscape p.1 ++ "=" ++ queryEscape p.2) acc).data,
        ¬(c = '?' ∨ c = '#') := by
    intro l
    induction l with
    | nil => intro acc hacc; exact hacc
    | cons p t ih =>
      intro acc hacc
      rw [List.foldl_cons]
      exact ih _ (singleQS_step_chars acc p hacc)
  exact hgen ps "" (by decide)

theorem multiQS_inner_chars (q : String) (l : List String) (acc : String)
    (hacc : ∀ c ∈ acc.data, ¬(c = '?' ∨ c = '#')) :
    ∀ c ∈ (l.foldl
        (fun acc v =>
          (if acc ≠ "" then acc ++ "&" else acc)
            ++ queryEscape q ++ "=" ++ queryEscape v) acc).data,
      ¬(c = '?' ∨ c = '#') := by
  induction l generalizing acc with
  | nil => exact hacc
  | cons v t ih =>
    rw [List.foldl_cons]
    exact ih _ (singleQS_step_chars acc (q, v) hacc)

theorem multiValueQueryString_chars (ps : List (String × List String)) :
    ∀ c ∈ (multiValueQueryString ps).data, ¬(c = '?' ∨ c = '#') := by
  rw [multiValueQueryString]
  have hgen : ∀ (l : List (String × List String)) (acc : String),
      (∀ c ∈ acc.data, ¬(c = '?' ∨ c = '#')) →
      ∀ c ∈ (l.foldl
          (fun acc p =>
            p.2.foldl
              (fun acc v =>
                (if acc ≠ "" then acc ++ "&" else acc)
                  ++ queryEscape p.1 ++ "=" ++ queryEscape v) acc) acc).data,
        ¬(c = '?' ∨ c = '#') := by
    intro l
    induction l with
    | nil => intro acc hacc; exact hacc
    | cons p t ih =>
      intro acc hacc
      rw [List.foldl_cons]
      exact ih _ (multiQS_inner_chars p.1 p.2 acc hacc)
  exact hgen ps "" (by decide)

theorem queryPartChars_append_no_q (l1 l2 : List Char)
    (h1 : ∀ c ∈ l1, ¬ c = '?') :
    queryPartChars (l1 ++ '?' :: l2) = l2 := by
  induction l1 with
  | nil => rw [List.nil_append, queryPartChars, if_pos rfl]
  | cons c t ih =>
    rw [List.cons_append, queryPartChars, if_neg (h1 c (by simp))]
    exact ih (fun x hx => h1 x (by simp [hx]))

theorem queryPartChars_no_q (l : List Char) (h : ∀ c ∈ l, ¬ c = '?') :
    queryPartChars l = [] := by
  induction l with
  | nil => rfl
  | cons c t ih =>
    rw [queryPartChars, if_neg (h c (by simp))]
    exact ih (fun x hx => h x (by simp [hx]))

theorem urlQuery_split (a q : String)
    (ha : ∀ c ∈ a.data, ¬(c = '?' ∨ c = '#'))
    (hq : ∀ c ∈ q.data, ¬(c = '?' ∨ c = '#')) :
    urlQuery (a ++ "?" ++ q) = q := by
  rw [urlQuery]
  have hdata : (a ++ "?" ++ q).data = a.data ++ '?' :: q.data := by
    have hqm : ("?" : String).data = ['?'] := rfl
    rw [String.data_append, String.data_append, hqm]
    simp
  rw [hdata]
  have htake : (a.data ++ '?' :: q.data).takeWhile (fun c => c ≠ '#')
      = a.data ++ '?' :: q.data := by
    apply List.takeWhile_eq_self_iff.mpr
    intro x hx
    rcases List.mem_append.mp hx with hx | hx
    · simpa using fun he => ha x hx (Or.inr he)
    · rcases List.mem_cons.mp hx with rfl | hx
      · decide
      · simpa using fun he => hq x hx (Or.inr he)
  rw [htake, queryPartChars_append_no_q _ _
    (fun c hc he => ha c hc (Or.inl he))]

theorem urlQuery_empty (s : String) (h : ∀ c ∈ s.data, ¬ c = '?') :
    urlQuery s = "" := by
  rw [urlQuery, queryPartChars_no_q]
  intro c hc
  exact h c ((List.takeWhile_sublist _).subset hc)

theorem normalizedPath_chars (acc : RequestAccessor) (p : String) :
    ∀ c ∈ (normalizedPath acc p).data, c = '/' ∨ c ∈ p.data := by
  rw [normalizedPath]
  set q := (if acc.stripBasePath ≠ "" ∧ acc.stripBasePath.length > 1 then
      if hasPrefixStr p acc.stripBasePath then
        String.mk (p.data.drop acc.stripBasePath.data.length)
      else p
    else p) with hq
  have hinner : ∀ c ∈ q.data, c ∈ p.data := by
    rw [hq]
    split_ifs with h1 h2
    · intro c hc
      exact List.drop_subset _ _ hc
    · exact fun c hc => hc
    · exact fun c hc => hc
  split_ifs with hpre
  · exact fun c hc => Or.inr (hinner c hc)
  · intro c hc
    have hdata : ("/" ++ q).data = '/' :: q.data := by
      rw [String.data_append]
      rfl
    rw [hdata] at hc
    rcases List.mem_cons.mp hc with rfl | hc
    · exact Or.inl rfl
    · exact Or.inr (hinner c hc)

theorem normalizedPath_slash (acc : RequestAccessor) (p : String) :
    hasPrefixStr (normalizedPath acc p) "/" = true := by
  rw [normalizedPath]
  set q := (if acc.stripBasePath ≠ "" ∧ acc.stripBasePath.length > 1 then
      if hasPrefixStr p acc.stripBasePath then
        String.mk (p.data.drop acc.stripBasePath.data.length)
      else p
    else p) with hq
  split_ifs with h
  · exact h
  · rw [hasPrefixStr]
    have hdata : ("/" ++ q).data = '/' :: q.data := by
      rw [String.data_append]
      rfl
    rw [hdata]
    simp [List.isPrefixOf]

/-! ## The claims -/

theorem utf8Valid_nil : utf8Valid [] = true := by simp [utf8Valid]

/-- C2: GetProxyResponse on a freshly constructed ProxyResponseWriter (no
Write, no WriteHeader) returns an error together with the zero-value record;
after one or more Write calls (with any byte slices) and no WriteHeader, it
succeeds and the record's status code is 200. -/
theorem c2_status_sentinel :
    (NewProxyResponseWriter.GetProxyResponse.2.isSome = true
      ∧ NewProxyResponseWriter.GetProxyResponse.1 = emptyALBResponse)
    ∧ ∀ (bs : List Nat) (bss : List (List Nat)),
        (writeAll NewProxyResponseWriter (bs :: bss)).GetProxyResponse.2 = none
        ∧ (writeAll NewProxyResponseWriter
            (bs :: bss)).GetProxyResponse.1.StatusCode = 200 := by
  refine ⟨⟨rfl, rfl⟩, ?_⟩
  intro bs bss
  have h1 : ((NewProxyResponseWriter.Write bs).1).status = 200 := by
    rw [(write_fields _ _).1]
    rfl
  have hstat : (writeAll NewProxyResponseWriter (bs :: bss)).status = 200 := by
    rw [writeAll, List.foldl_cons]
    have h2 := writeAll_status bss (NewProxyResponseWriter.Write bs).1
      (by rw [h1]; decide)
    rw [writeAll] at h2
    rw [h2, h1]
  have hset : ¬ (writeAll NewProxyResponseWriter (bs :: bss)).status = -1 := by
    rw [hstat]; decide
  rw [getProxyResponse_of_status_set _ hset]
  exact ⟨rfl, hstat⟩

/-- C10: GetProxyResponse never mutates the writer: with the receiver
threaded explicitly, the writer that comes back is the receiver itself
(headers, body buffer and status unchanged), and a second call returns the
same (record, error) pair as the first. -/
theorem c10_get_proxy_response_pure (w : ProxyResponseWriter) :
    w.GetProxyResponseThreaded.1 = w
      ∧ w.GetProxyResponseThreaded.1.GetProxyResponseThreaded.2
          = w.GetProxyResponseThreaded.2
      ∧ w.GetProxyResponseThreaded.1.headers = w.headers
      ∧ w.GetProxyResponseThreaded.1.body = w.body
      ∧ w.GetProxyResponseThreaded.1.status = w.status :=
  ⟨rfl, rfl, rfl, rfl, rfl⟩

/-- C5: for every writer whose status has been set (not the -1 sentinel),
GetProxyResponse succeeds; the record's body is the accumulated buffer as a
plain string with the base64 flag false when the buffer is valid UTF-8, and
the standard-base64 encoding of the buffer with the flag true when it is
not; the status description is the decimal string form of the status
code. -/
theorem c5_finalize_body (w : ProxyResponseWriter) (h : ¬ w.status = -1) :
    w.GetProxyResponse.2 = none
      ∧ w.GetProxyResponse.1.StatusCode = w.status
      ∧ w.GetProxyResponse.1.StatusDescription = toString w.status
      ∧ (utf8Valid w.body = true →
          w.GetProxyResponse.1.Body = stringFromBytes w.body
            ∧ strBytes w.GetProxyResponse.1.Body = w.body
            ∧ w.GetProxyResponse.1.IsBase64Encoded = false)
      ∧ (utf8Valid w.body = false →
          w.GetProxyResponse.1.Body = base64EncodeString w.body
            ∧ w.GetProxyResponse.1.IsBase64Encoded = true) := by
  rw [getProxyResponse_of_status_set w h]
  refine ⟨rfl, rfl, rfl, ?_, ?_⟩
  · intro hv
    refine ⟨?_, ?_, ?_⟩
    · show (if utf8Valid w.body = true then stringFromBytes w.body
        else base64EncodeString w.body) = _
      rw [if_pos hv]
    · show strBytes (if utf8Valid w.body = true then stringFromBytes w.body
        else base64EncodeString w.body) = _
      rw [if_pos hv]
      exact strBytes_stringFromBytes w.body hv
    · show (if utf8Valid w.body = true then false else true) = false
      rw [if_pos hv]
  · intro hv
    have hnv : ¬ utf8Valid w.body = true := by rw [hv]; decide
    refine ⟨?_, ?_⟩
    · show (if utf8Valid w.body = true then stringFromBytes w.body
        else base64EncodeString w.body) = _
      rw [if_neg hnv]
    · show (if utf8Valid w.body = true then false else true) = true
      rw [if_neg hnv]

theorem c5_witness :
    (ProxyResponseWriter.GetProxyResponse ⟨[], [104, 105], 200⟩).2 = none
      ∧ (ProxyResponseWriter.GetProxyResponse
          ⟨[], [104, 105], 200⟩).1.StatusDescription = "200" :=
  ⟨(c5_finalize_body ⟨[], [104, 105], 200⟩ (by decide)).1,
   (c5_finalize_body ⟨[], [104, 105], 200⟩ (by decide)).2.2.1⟩

/-- C7: with the base64 flag set, an invalid standard-base64 body makes
EventToRequest return no request; a valid base64 body makes the translated
request's body the decoded bytes. With the flag unset, the body bytes pass
through unchanged. -/
theorem c7_body_decoding (env : Option String) (acc : RequestAccessor)
    (req : ALBTargetGroupRequest) :
    (req.IsBase64Encoded = true → base64DecodeString req.Body = none →
        EventToRequest env acc req = none)
    ∧ (∀ bb r, req.IsBase64Encoded = true →
        base64DecodeString req.Body = some bb →
        EventToRequest env acc req = some r → r.BodyBytes = bb)
    ∧ (∀ r, req.IsBase64Encoded = false → EventToRequest env acc req = some r →
        r.BodyBytes = strBytes req.Body) := by
  refine ⟨fun hf hd => EventToRequest_none_of_decode_fail env acc req hf hd,
    ?_, ?_⟩
  · intro bb r hf hd hr
    have h1 := (EventToRequest_some env acc req r hr).1
    rw [bodyBytesOf, if_pos hf, hd] at h1
    exact (Option.some.inj h1).symm
  · intro r hf hr
    have h1 := (EventToRequest_some env acc req r hr).1
    rw [bodyBytesOf, if_neg (by rw [hf]; decide)] at h1
    exact (Option.some.inj h1).symm

theorem c7_witness :
    EventToRequest none ⟨""⟩
      { HTTPMethod := "GET", Path := "/", QueryStringParameters := [],
          MultiValueQueryStringParameters := [], Headers := [],
          MultiValueHeaders := [], IsBase64Encoded := true, Body := "!!!" }
      = none
    ∧ ({ Method := "GET", URL := "https://aws-serverless-go-api.com/",
          BodyBytes := [104, 101, 108, 108, 111],
          Header := [] } : HTTPRequest).BodyBytes = [104, 101, 108, 108, 111]
    ∧ ({ Method := "GET", URL := "https://aws-serverless-go-api.com/",
          BodyBytes := [111, 107], Header := [] } : HTTPRequest).BodyBytes
        = strBytes "ok" :=
  ⟨(c7_body_decoding none ⟨""⟩ _).1 rfl (by decide),
   (c7_body_decoding none ⟨""⟩
      { HTTPMethod := "GET", Path := "/", QueryStringParameters := [],
          MultiValueQueryStringParameters := [], Headers := [],
          MultiValueHeaders := [], IsBase64Encoded := true,
          Body := "aGVsbG8=" }).2.1 [104, 101, 108, 108, 111] _ rfl (by decide)
      (by decide),
   (c7_body_decoding none ⟨""⟩
      { HTTPMethod := "GET", Path := "/", QueryStringParameters := [],
          MultiValueQueryStringParameters := [], Headers := [],
          MultiValueHeaders := [], IsBase64Encoded := false,
          Body := "ok" }).2.2 _ rfl (by decide)⟩

/-- C4: whenever event-to-request translation fails, or the handler run
leaves GetProxyResponse failing, the dispatch entry point returns the fixed
504 TimeoutResponse record (a structurally valid, non-zero record) together
with a non-nil error. -/
theorem c4_dispatch_fail_safe (env : Option String) (acc : RequestAccessor)
    (serve : ProxyResponseWriter → HTTPRequest → ProxyResponseWriter)
    (req : ALBTargetGroupRequest)
    (h : EventToRequest env acc req = none
      ∨ ∃ r, EventToRequest env acc req = some r
          ∧ ((serve NewProxyResponseWriter r).GetProxyResponse).2.isSome
              = true) :
    (ProxyWithContext env acc serve req).1.StatusCode = 504
      ∧ (ProxyWithContext env acc serve req).1 = TimeoutResponse
      ∧ (ProxyWithContext env acc serve req).1 ≠ emptyALBResponse
      ∧ (ProxyWithContext env acc serve req).2.isSome = true := by
  rcases h with h | ⟨r, hr, herr⟩
  · rw [ProxyWithContext, EventToRequestWithContext, h, proxyInternal]
    exact ⟨rfl, rfl, by decide, rfl⟩
  · rw [ProxyWithContext, EventToRequestWithContext, hr, proxyInternal]
    rcases hg : (serve NewProxyResponseWriter r).GetProxyResponse with ⟨resp, err⟩
    cases err with
    | none =>
      rw [hg] at herr
      exact Bool.noConfusion herr
    | some e =>
      refine ⟨rfl, rfl, ?_, rfl⟩
      show TimeoutResponse ≠ emptyALBResponse
      decide

theorem c4_witness :
    (ProxyWithContext none ⟨""⟩ (fun w _ => w)
      { HTTPMethod := "GET", Path := "/", QueryStringParameters := [],
          MultiValueQueryStringParameters := [], Headers := [],
          MultiValueHeaders := [], IsBase64Encoded := true,
          Body := "!!!" }).1.StatusCode = 504
    ∧ (ProxyWithContext none ⟨""⟩ (fun w _ => w)
      { HTTPMethod := "GET", Path := "/", QueryStringParameters := [],
          MultiValueHeaders := [], MultiValueQueryStringParameters := [],
          Headers := [], IsBase64Encoded := false,
          Body := "ok" }).1.StatusCode = 504 :=
  ⟨(c4_dispatch_fail_safe none ⟨""⟩ (fun w _ => w) _
      (Or.inl (by decide))).1,
   (c4_dispatch_fail_safe none ⟨""⟩ (fun w _ => w) _
      (Or.inr ⟨
        { Method := "GET", URL := "https://aws-serverless-go-api.com/",
            BodyBytes := [111, 107], Header := [] },
        by decide, by decide⟩)).1⟩

/-- C9: when Write is called with no Content-Type header present, a
Content-Type header is set from content sniffing of the written bytes (for
bytes matching an HTML signature the value begins with "text/html"); a
Content-Type first value present before a Write is never changed by it. -/
theorem c9_content_type (w : ProxyResponseWriter) (bs : List Nat) :
    (hasHeaderKey w.headers contentTypeHeaderKey = false →
        headerGet (w.Write bs).1.headers contentTypeHeaderKey
          = DetectContentType bs)
    ∧ (hasHeaderKey w.headers contentTypeHeaderKey = false →
        htmlSigHit bs = true →
        hasPrefixStr (headerGet (w.Write bs).1.headers contentTypeHeaderKey)
          "text/html" = true)
    ∧ (∀ v, headerFirstValue w.headers contentTypeHeaderKey = some v →
        headerFirstValue (w.Write bs).1.headers contentTypeHeaderKey
          = some v) := by
  have hheaders := (write_fields w bs).2.2.2
  have hcanon : canonicalMIMEHeaderKey contentTypeHeaderKey
      = contentTypeHeaderKey := by
    rw [contentTypeHeaderKey]
    exact canonicalCT
  refine ⟨?_, ?_, ?_⟩
  · intro hk
    rw [hheaders, if_pos (headerGet_of_no_key w.headers hk)]
    exact headerGet_headerAdd_CT w.headers _ hk
  · intro hk hhit
    have h1 : headerGet (w.Write bs).1.headers contentTypeHeaderKey
        = DetectContentType bs := by
      rw [hheaders, if_pos (headerGet_of_no_key w.headers hk)]
      exact headerGet_headerAdd_CT w.headers _ hk
    rw [h1, DetectContentType_of_htmlSigHit bs hhit]
    decide
  · intro v hv
    rw [hheaders]
    split_ifs with hget
    · have hpres := headerFirstValue_headerAdd w.headers contentTypeHeaderKey
        (DetectContentType bs) v (by rw [hcanon]; exact hv)
      rw [hcanon] at hpres
      exact hpres
    · exact hv

theorem c9_witness :
    headerGet ((NewProxyResponseWriter.Write (strBytes "<html>x")).1).headers
        contentTypeHeaderKey = DetectContentType (strBytes "<html>x")
    ∧ hasPrefixStr
        (headerGet
          ((NewProxyResponseWriter.Write (strBytes "<html>x")).1).headers
          contentTypeHeaderKey) "text/html" = true
    ∧ headerFirstValue
        ((ProxyResponseWriter.Write ⟨[("Content-Type", ["text/plain"])], [], -1⟩
          (strBytes "<html>x")).1).headers contentTypeHeaderKey
        = some "text/plain" :=
  ⟨(c9_content_type NewProxyResponseWriter (strBytes "<html>x")).1 (by decide),
   (c9_content_type NewProxyResponseWriter (strBytes "<html>x")).2.1
     (by decide) (by decide),
   (c9_content_type ⟨[("Content-Type", ["text/plain"])], [], -1⟩
     (strBytes "<html>x")).2.2 "text/plain" (by decide)⟩

/-- C6: after StripBasePath("/api"), a record with path "/api/users"
translates to the URL of path "/users"; StripBasePath("") clears the
stripping so the path is used as is (up to the ensured leading slash); with
the host-override environment variable unset, every translated URL is the
fixed default server address followed by the normalized path (which always
begins with "/") and the query suffix. -/
theorem c6_base_path_and_host (req : ALBTargetGroupRequest) (r : HTTPRequest) :
    (∀ acc0 : RequestAccessor, req.Path = "/api/users" →
        req.MultiValueQueryStringParameters = [] →
        req.QueryStringParameters = [] →
        EventToRequest none (acc0.StripBasePath "/api").1 req = some r →
        r.URL = DefaultServerAddress ++ "/users")
    ∧ (∀ acc0 : RequestAccessor, (acc0.StripBasePath "").1 = ⟨""⟩)
    ∧ (EventToRequest none ⟨""⟩ req = some r →
        r.URL = DefaultServerAddress
          ++ (if hasPrefixStr req.Path "/" then req.Path else "/" ++ req.Path)
          ++ querySuffix req)
    ∧ (∀ acc : RequestAccessor, EventToRequest none acc req = some r →
        r.URL = DefaultServerAddress ++ normalizedPath acc req.Path
            ++ querySuffix req
          ∧ hasPrefixStr (normalizedPath acc req.Path) "/" = true) := by
  refine ⟨?_, ?_, ?_, ?_⟩
  · intro acc0 hpath hm hq hr
    have hacc : (acc0.StripBasePath "/api").1 = ⟨"/api"⟩ := by
      cases acc0
      rfl
    rw [hacc] at hr
    have hurl := (EventToRequest_some _ _ _ _ hr).2.2.1
    rw [hurl, urlOf, hpath]
    have hqs : querySuffix req = "" := by
      rw [querySuffix, hm, hq]
      rfl
    rw [hqs]
    have hnorm : normalizedPath ⟨"/api"⟩ "/api/users" = "/users" := by decide
    rw [hnorm, String.append_empty]
    rfl
  · intro acc0
    cases acc0
    rfl
  · intro hr
    have hurl := (EventToRequest_some _ _ _ _ hr).2.2.1
    rw [hurl, urlOf]
    have hnorm : normalizedPath ⟨""⟩ req.Path
        = if hasPrefixStr req.Path "/" then req.Path else "/" ++ req.Path := by
      rw [normalizedPath]
      have hcond : ¬(RequestAccessor.stripBasePath ⟨""⟩ ≠ ""
          ∧ (RequestAccessor.stripBasePath ⟨""⟩).length > 1) := by simp
      rw [if_neg hcond]
    rw [hnorm]
    rfl
  · intro acc hr
    refine ⟨?_, normalizedPath_slash acc req.Path⟩
    rw [(EventToRequest_some _ _ _ _ hr).2.2.1]
    rfl

theorem c6_witness :
    ({ Method := "GET", URL := "https://aws-serverless-go-api.com/users",
        BodyBytes := [], Header := [] } : HTTPRequest).URL
      = DefaultServerAddress ++ "/users" :=
  (c6_base_path_and_host
    { HTTPMethod := "GET", Path := "/api/users", QueryStringParameters := [],
        MultiValueQueryStringParameters := [], Headers := [],
        MultiValueHeaders := [], IsBase64Encoded := false, Body := "" }
    { Method := "GET", URL := "https://aws-serverless-go-api.com/users",
        BodyBytes := [], Header := [] }).1 ⟨""⟩ rfl rfl rfl (by decide)

/-- C8 counterexample: a record whose single-valued header map carries the
two distinct keys "x-a" and "X-A" (one header name up to canonicalization)
translates to a request whose "X-A" header holds both values — two values
survive under the name, not exactly one last-winner. -/
theorem c8_counterexample :
    headerValues
        ((EventToRequest none ⟨""⟩
          { HTTPMethod := "GET", Path := "/", QueryStringParameters := [],
              MultiValueQueryStringParameters := [],
              Headers := [("x-a", "1"), ("X-A", "2")], MultiValueHeaders := [],
              IsBase64Encoded := false, Body := "" }).getD
          dummyHTTPRequest).Header
        (canonicalMIMEHeaderKey "x-a") = ["1", "2"]
      ∧ ¬ (headerValues
        ((EventToRequest none ⟨""⟩
          { HTTPMethod := "GET", Path := "/", QueryStringParameters := [],
              MultiValueQueryStringParameters := [],
              Headers := [("x-a", "1"), ("X-A", "2")], MultiValueHeaders := [],
              IsBase64Encoded := false, Body := "" }).getD
          dummyHTTPRequest).Header
        (canonicalMIMEHeaderKey "x-a")).length = 1 := by decide

/-- C8 amended: EventToRequest copies every entry of the record's
single-valued header map into the request's header mapping under the
canonicalized name, and a value sits under a name exactly when some source
entry contributed it — entries whose names canonicalize identically
accumulate as multiple values (no value is discarded, there is no
last-wins override). -/
theorem c8_amended_header_copy (env : Option String) (acc : RequestAccessor)
    (req : ALBTargetGroupRequest) (r : HTTPRequest)
    (h : EventToRequest env acc req = some r) :
    ∀ K v, v ∈ headerValues r.Header K
      ↔ ∃ k, canonicalMIMEHeaderKey k = K ∧ (k, v) ∈ req.Headers := by
  intro K v
  rw [(EventToRequest_some env acc req r h).2.2.2]
  exact buildRequestHeaders_mem req.Headers K v

theorem c8_witness :
    "1" ∈ headerValues
      ({ Method := "GET", URL := "https://aws-serverless-go-api.com/",
          BodyBytes := [],
          Header := [("X-A", ["1", "2"])] } : HTTPRequest).Header "X-A" :=
  (c8_amended_header_copy none ⟨""⟩
    { HTTPMethod := "GET", Path := "/", QueryStringParameters := [],
        MultiValueQueryStringParameters := [],
        Headers := [("x-a", "1"), ("X-A", "2")], MultiValueHeaders := [],
        IsBase64Encoded := false, Body := "" }
    { Method := "GET", URL := "https://aws-serverless-go-api.com/",
        BodyBytes := [], Header := [("X-A", ["1", "2"])] }
    (by decide) "X-A" "1").mpr ⟨"x-a", by decide, by decide⟩

/-- C3 counterexample: a record whose path itself contains "?" — with both
query-parameter maps empty — still yields a URL whose parsed query string is
non-empty, contradicting "if both are empty the URL contains no query
string". -/
theorem c3_counterexample :
    urlQuery ((EventToRequest none ⟨""⟩
        { HTTPMethod := "GET", Path := "/a?b=c", QueryStringParameters := [],
            MultiValueQueryStringParameters := [], Headers := [],
            MultiValueHeaders := [], IsBase64Encoded := false,
            Body := "" }).getD dummyHTTPRequest).URL = "b=c"
      ∧ ¬ urlQuery ((EventToRequest none ⟨""⟩
        { HTTPMethod := "GET", Path := "/a?b=c", QueryStringParameters := [],
            MultiValueQueryStringParameters := [], Headers := [],
            MultiValueHeaders := [], IsBase64Encoded := false,
            Body := "" }).getD dummyHTTPRequest).URL = "" := by decide

/-- C3 amended: provided the record's path and the server address are free
of "?" and "#" (so that the path cannot smuggle its own query or fragment
into the URL), the translated URL's query string is built from the
multi-value map alone whenever that map is non-empty, from the single-value
map when only it is non-empty, and is absent when both are empty. -/
theorem c3_amended_query_precedence (env : Option String)
    (acc : RequestAccessor) (req : ALBTargetGroupRequest) (r : HTTPRequest)
    (hpath : ∀ c ∈ req.Path.data, ¬(c = '?' ∨ c = '#'))
    (haddr : ∀ c ∈ (serverAddressOf env).data, ¬(c = '?' ∨ c = '#'))
    (h : EventToRequest env acc req = some r) :
    (req.MultiValueQueryStringParameters ≠ [] →
        urlQuery r.URL
          = multiValueQueryString req.MultiValueQueryStringParameters)
    ∧ (req.MultiValueQueryStringParameters = [] →
        req.QueryStringParameters ≠ [] →
        urlQuery r.URL = singleValueQueryString req.QueryStringParameters)
    ∧ (req.MultiValueQueryStringParameters = [] →
        req.QueryStringParameters = [] → urlQuery r.URL = "") := by
  have hurl := (EventToRequest_some env acc req r h).2.2.1
  have hbase : ∀ c ∈ (serverAddressOf env ++ normalizedPath acc req.Path).data,
      ¬(c = '?' ∨ c = '#') := by
    apply append_chars _ _ haddr
    intro c hc
    rcases normalizedPath_chars acc req.Path c hc with rfl | hc
    · decide
    · exact hpath c hc
  refine ⟨?_, ?_, ?_⟩
  · intro hm
    rw [hurl, urlOf, querySuffix,
      if_pos (by simpa using List.length_pos.mpr hm),
      ← String.append_assoc]
    exact urlQuery_split _ _ hbase (multiValueQueryString_chars _)
  · intro hm hq
    rw [hurl, urlOf, querySuffix]
    rw [if_neg (by rw [hm]; simp), if_pos (by simpa using List.length_pos.mpr hq),
      ← String.append_assoc]
    exact urlQuery_split _ _ hbase (singleValueQueryString_chars _)
  · intro hm hq
    rw [hurl, urlOf, querySuffix, if_neg (by rw [hm]; simp),
      if_neg (by rw [hq]; simp), String.append_empty]
    exact urlQuery_empty _ (fun c hc he => hbase c hc (Or.inl he))

theorem c3_witness :
    urlQuery ({ Method := "GET",
                URL := "https://aws-serverless-go-api.com/hi?a=1&a=2",
                BodyBytes := [], Header := [] } : HTTPRequest).URL
      = "a=1&a=2" := by
  have happ := (c3_amended_query_precedence none ⟨""⟩
    { HTTPMethod := "GET", Path := "/hi",
        QueryStringParameters := [("a", "x")],
        MultiValueQueryStringParameters := [("a", ["1", "2"])], Headers := [],
        MultiValueHeaders := [], IsBase64Encoded := false, Body := "" }
    { Method := "GET", URL := "https://aws-serverless-go-api.com/hi?a=1&a=2",
        BodyBytes := [], Header := [] }
    (by decide) (by decide) (by decide)).1 (by decide)
  rw [happ]
  decide

theorem mem_headerValues_headerAdd (h : HeadersMap) (k v K x : String)
    (hx : x ∈ headerValues h K) : x ∈ headerValues (headerAdd h k v) K := by
  by_cases hK : K = canonicalMIMEHeaderKey k
  · subst hK
    rw [headerValues_headerAdd_self]
    exact List.mem_append.mpr (Or.inl hx)
  · rw [headerValues_headerAdd_ne _ _ _ _ hK]
    exact hx

/-- C1 counterexample: the echo pipeline on a record with empty headers and
body "hi" produces an outbound record whose multi-value headers contain a
sniffed Content-Type entry, so they do not equal the inbound record's
(empty) headers. -/
theorem c1_counterexample :
    (ProxyWithContext none ⟨""⟩ echoHandler
      { HTTPMethod := "GET", Path := "/", QueryStringParameters := [],
          MultiValueQueryStringParameters := [], Headers := [],
          MultiValueHeaders := [], IsBase64Encoded := false,
          Body := "hi" }).1.MultiValueHeaders
      = [("Content-Type", ["text/plain; charset=utf-8"])]
    ∧ ¬ (ProxyWithContext none ⟨""⟩ echoHandler
      { HTTPMethod := "GET", Path := "/", QueryStringParameters := [],
          MultiValueQueryStringParameters := [], Headers := [],
          MultiValueHeaders := [], IsBase64Encoded := false,
          Body := "hi" }).1.MultiValueHeaders = [] := by
  have hreq : EventToRequest none ⟨""⟩
      { HTTPMethod := "GET", Path := "/", QueryStringParameters := [],
          MultiValueQueryStringParameters := [], Headers := [],
          MultiValueHeaders := [], IsBase64Encoded := false, Body := "hi" }
      = some { Method := "GET",
               URL := "https://aws-serverless-go-api.com/",
               BodyBytes := [104, 105], Header := [] } := by decide
  have hw : echoHandler NewProxyResponseWriter
      { Method := "GET", URL := "https://aws-serverless-go-api.com/",
          BodyBytes := [104, 105], Header := [] }
      = ⟨[("Content-Type", ["text/plain; charset=utf-8"])], [104, 105],
          200⟩ := by decide
  have hget := getProxyResponse_of_status_set
    (⟨[("Content-Type", ["text/plain; charset=utf-8"])], [104, 105], 200⟩ :
      ProxyResponseWriter) (by decide)
  have hmv : (ProxyWithContext none ⟨""⟩ echoHandler
      { HTTPMethod := "GET", Path := "/", QueryStringParameters := [],
          MultiValueQueryStringParameters := [], Headers := [],
          MultiValueHeaders := [], IsBase64Encoded := false,
          Body := "hi" }).1.MultiValueHeaders
      = [("Content-Type", ["text/plain; charset=utf-8"])] := by
    rw [ProxyWithContext, EventToRequestWithContext, hreq, proxyInternal, hw,
      hget]
  exact ⟨hmv, by rw [hmv]; decide⟩

/-- C1 amended: for every record that translates successfully, the echo
pipeline (handler copies the request's headers and body into the writer)
succeeds and round-trips the payload: the outbound body decodes (per its own
base64 flag) to exactly the translated body bytes, which are what the
inbound body decodes to (per its flag); when the inbound flag is false the
outbound body string is literally the inbound body with the flag false. The
outbound headers are the inbound headers canonicalized, except that a
sniffed Content-Type value is added when none is present; every inbound
header value survives. -/
theorem c1_amended_echo_roundtrip (env : Option String) (acc : RequestAccessor)
    (req : ALBTargetGroupRequest) (r : HTTPRequest)
    (h : EventToRequest env acc req = some r) :
    (ProxyWithContext env acc echoHandler req).2 = none
    ∧ bodyBytesOf (ProxyWithContext env acc echoHandler req).1.Body
        (ProxyWithContext env acc echoHandler req).1.IsBase64Encoded
        = some r.BodyBytes
    ∧ bodyBytesOf req.Body req.IsBase64Encoded = some r.BodyBytes
    ∧ (req.IsBase64Encoded = false →
        (ProxyWithContext env acc echoHandler req).1.Body = req.Body
        ∧ (ProxyWithContext env acc echoHandler req).1.IsBase64Encoded = false)
    ∧ (ProxyWithContext env acc echoHandler req).1.MultiValueHeaders
        = (if headerGet r.Header contentTypeHeaderKey = "" then
            headerAdd r.Header contentTypeHeaderKey
              (DetectContentType r.BodyBytes)
          else r.Header)
    ∧ (∀ K v, v ∈ headerValues r.Header K →
        v ∈ headerValues
          (ProxyWithContext env acc echoHandler req).1.MultiValueHeaders K) := by
  have hW : echoHandler NewProxyResponseWriter r
      = (ProxyResponseWriter.Write ⟨r.Header, [], -1⟩ r.BodyBytes).1 := rfl
  have hstat : (echoHandler NewProxyResponseWriter r).status = 200 := by
    rw [hW, (write_fields _ _).1]
    rfl
  have hbody : (echoHandler NewProxyResponseWriter r).body = r.BodyBytes := by
    rw [hW, (write_fields _ _).2.1]
    exact List.nil_append _
  have hhd : (echoHandler NewProxyResponseWriter r).headers
      = (if headerGet r.Header contentTypeHeaderKey = "" then
          headerAdd r.Header contentTypeHeaderKey
            (DetectContentType r.BodyBytes)
        else r.Header) := by
    rw [hW, (write_fields _ _).2.2.2]
  have hget := getProxyResponse_of_status_set
    (echoHandler NewProxyResponseWriter r) (by rw [hstat]; decide)
  have hlt : ∀ b ∈ r.BodyBytes, b < 256 :=
    EventToRequest_bodyBytes_lt env acc req r h
  have hbytes := (EventToRequest_some env acc req r h).1
  refine ⟨?_, ?_, hbytes, ?_, ?_, ?_⟩
  · rw [ProxyWithContext, EventToRequestWithContext, h, proxyInternal, hget]
  · rw [ProxyWithContext, EventToRequestWithContext, h, proxyInternal, hget]
    show bodyBytesOf
      (if utf8Valid (echoHandler NewProxyResponseWriter r).body = true then
        stringFromBytes (echoHandler NewProxyResponseWriter r).body
      else base64EncodeString (echoHandler NewProxyResponseWriter r).body)
      (if utf8Valid (echoHandler NewProxyResponseWriter r).body = true then
        false else true) = some r.BodyBytes
    rw [hbody]
    by_cases hv : utf8Valid r.BodyBytes = true
    · rw [if_pos hv, if_pos hv, bodyBytesOf]
      rw [if_neg (by decide)]
      rw [strBytes_stringFromBytes _ hv]
    · rw [if_neg hv, if_neg hv, bodyBytesOf, if_pos rfl]
      exact base64DecodeString_encode _ hlt
  · intro hflag
    rw [ProxyWithContext, EventToRequestWithContext, h, proxyInternal, hget]
    have hstr : r.BodyBytes = strBytes req.Body := by
      rw [bodyBytesOf, if_neg (by rw [hflag]; decide)] at hbytes
      exact (Option.some.inj hbytes).symm
    have hv : utf8Valid (echoHandler NewProxyResponseWriter r).body = true := by
      rw [hbody, hstr]
      exact utf8Valid_strBytes req.Body
    constructor
    · show (if utf8Valid (echoHandler NewProxyResponseWriter r).body = true then
          stringFromBytes (echoHandler NewProxyResponseWriter r).body
        else base64EncodeString (echoHandler NewProxyResponseWriter r).body)
        = req.Body
      rw [if_pos hv, hbody, hstr]
      exact stringFromBytes_strBytes req.Body
    · show (if utf8Valid (echoHandler NewProxyResponseWriter r).body = true then
          false else true) = false
      rw [if_pos hv]
  · rw [ProxyWithContext, EventToRequestWithContext, h, proxyInternal, hget]
    exact hhd
  · intro K v hv
    rw [ProxyWithContext, EventToRequestWithContext, h, proxyInternal, hget]
    show v ∈ headerValues (echoHandler NewProxyResponseWriter r).headers K
    rw [hhd]
    split_ifs with hg
    · exact mem_headerValues_headerAdd _ _ _ _ _ hv
    · exact hv

theorem c1_witness :
    (ProxyWithContext none ⟨""⟩ echoHandler
      { HTTPMethod := "GET", Path := "/", QueryStringParameters := [],
          MultiValueQueryStringParameters := [], Headers := [],
          MultiValueHeaders := [], IsBase64Encoded := false,
          Body := "hi" }).2 = none
    ∧ (ProxyWithContext none ⟨""⟩ echoHandler
      { HTTPMethod := "GET", Path := "/", QueryStringParameters := [],
          MultiValueQueryStringParameters := [], Headers := [],
          MultiValueHeaders := [], IsBase64Encoded := false,
          Body := "hi" }).1.Body = "hi" :=
  ⟨(c1_amended_echo_roundtrip none ⟨""⟩ _
      { Method := "GET", URL := "https://aws-serverless-go-api.com/",
          BodyBytes := [104, 105], Header := [] } (by decide)).1,
   ((c1_amended_echo_roundtrip none ⟨""⟩ _
      { Method := "GET", URL := "https://aws-serverless-go-api.com/",
          BodyBytes := [104, 105], Header := [] } (by decide)).2.2.2.1
      rfl).1⟩
